import Mathlib

/-!
Verification of the LLMover relocation engine (`src/llm_mover/utils.py`,
`src/llm_mover/models.py`, `src/llm_mover/config.py`).

The Python code is shallowly embedded: the filesystem is a finite
association list from absolute paths (lists of name components) to nodes
(regular file with a byte size, directory, or symbolic link with a recorded
target path), and each Python function that touches the filesystem becomes a
pure Lean function from a filesystem to a filesystem, mirroring the source's
control flow statement by statement.  `shutil`/`os`/`pathlib` primitives are
given their documented POSIX semantics (e.g. `Path.exists` follows links,
`shutil.move` onto an existing directory moves the object inside it, onto an
existing file replaces it).  Runtime exceptions raised by a callee are
represented by `Option`-valued error results threaded explicitly.
-/

namespace LLMover

/-- An absolute filesystem path, as its list of name components. -/
abbrev FPath := List String

/-- A filesystem node: a regular file (with its byte size), a directory, or a
symbolic link recording its target path. -/
inductive Node where
  | file (sz : Nat)
  | dir
  | link (target : FPath)
  deriving DecidableEq

/-- A filesystem: a finite association list from paths to nodes.  Paths of
live entries are intended to be distinct (directory entries are unique). -/
abbrev FS := List (FPath × Node)

/-- The node stored at path `p`, if any (no symlink following: `os.lstat`). -/
def lookupFS (fs : FS) (p : FPath) : Option Node :=
  (fs.find? (fun e => e.1 = p)).map (fun e => e.2)

/-- `underPath anc p`: `p` equals `anc` or lies strictly below it, i.e. `anc`
is a leading run of components of `p`. -/
def underPath : FPath → FPath → Bool
  | [], _ => true
  | _ :: _, [] => false
  | a :: as, b :: bs => a = b && underPath as bs

/-- Strictly below: a proper descendant (what `Path.rglob('*')` yields). -/
def strictUnder (anc p : FPath) : Bool :=
  underPath anc p && decide (p ≠ anc)

/-- Remove the node at `p` and every node below it (`shutil.rmtree`, or
`Path.unlink` on a leaf). -/
def removeTree (fs : FS) (p : FPath) : FS :=
  fs.filter (fun e => !underPath p e.1)

/-- Remove exactly the entry keyed `p` (`Path.unlink` on a file or symlink:
the link object itself is removed, never its target). -/
def removeEntry (fs : FS) (p : FPath) : FS :=
  fs.filter (fun e => decide (e.1 ≠ p))

/-- Rebase a path below `src` to the corresponding path below `dst`. -/
def rebasePath (src dst p : FPath) : FPath :=
  dst ++ p.drop src.length

/-- Move the whole subtree rooted at `src` to `dst` (plain rename with no
pre-existing object at `dst`). -/
def moveTree (fs : FS) (src dst : FPath) : FS :=
  fs.filter (fun e => !underPath src e.1) ++
    fs.filterMap (fun e =>
      if underPath src e.1 then some (rebasePath src dst e.1, e.2) else none)

/-- `shutil.move(a, b)`: if `b` is an existing directory the object is moved
inside it under its own last name; if `b` is an existing file it is replaced
(`os.rename` semantics); otherwise a plain rename. -/
def shutilMove (fs : FS) (a b : FPath) : FS :=
  match lookupFS fs b with
  | some Node.dir => moveTree fs a (b ++ a.drop (a.length - 1))
  | some _ => moveTree (removeTree fs b) a b
  | none => moveTree fs a b

/-- `Path.mkdir(exist_ok=True)`: create the directory entry if absent. -/
def mkdirP (fs : FS) (p : FPath) : FS :=
  match lookupFS fs p with
  | none => fs ++ [(p, Node.dir)]
  | some _ => fs

/-- Follow a chain of symbolic links from a node to the terminal non-link
node, with fuel bounding chain length (cycles behave like `ELOOP`: the
resolution fails). -/
def resolveNode (fs : FS) : Nat → Node → Option Node
  | _, Node.file sz => some (Node.file sz)
  | _, Node.dir => some Node.dir
  | 0, Node.link _ => none
  | fuel + 1, Node.link t =>
    match lookupFS fs t with
    | none => none
    | some n => resolveNode fs fuel n

/-- Fuel always sufficient to resolve any acyclic link chain in `fs`. -/
def linkFuel (fs : FS) : Nat := fs.length + 1

/-- `Path.exists()`: follows symbolic links; a broken or cyclic link chain
reports `False`. -/
def pexists (fs : FS) (p : FPath) : Bool :=
  match lookupFS fs p with
  | none => false
  | some n => (resolveNode fs (linkFuel fs) n).isSome

/-- `path.is_file()` composed with `stat().st_size`: the size a directory
walk attributes to an entry (follows links; non-files and broken links
contribute nothing). -/
def statFileSize (fs : FS) (n : Node) : Nat :=
  match resolveNode fs (linkFuel fs) n with
  | some (Node.file sz) => sz
  | _ => 0

/-- Whether the entry counts as a regular file for a directory walk
(`f.is_file()`, which follows links). -/
def statIsFile (fs : FS) (n : Node) : Bool :=
  match resolveNode fs (linkFuel fs) n with
  | some (Node.file _) => true
  | _ => false

/-- `sum(f.stat().st_size for f in path.rglob('*') if f.is_file())`. -/
def dirFilesSize (fs : FS) (p : FPath) : Nat :=
  (fs.map (fun e => if strictUnder p e.1 then statFileSize fs e.2 else 0)).sum

/-- `len([f for f in path.rglob('*') if f.is_file()])`. -/
def dirFileCount (fs : FS) (p : FPath) : Nat :=
  (fs.map (fun e =>
    if strictUnder p e.1 && statIsFile fs e.2 then 1 else 0)).sum

/-- `ModelManager._calculate_size` with explicit link-following fuel: a
symlink is resolved and the target measured, a file reports its size, a
directory the total size of its contained regular files, a missing or broken
path reports `0`. -/
def calcSizeFuel (fs : FS) : Nat → FPath → Nat
  | 0, _ => 0
  | fuel + 1, p =>
    match lookupFS fs p with
    | some (Node.link t) => calcSizeFuel fs fuel t
    | some (Node.file sz) => sz
    | some Node.dir => dirFilesSize fs p
    | none => 0

/-- `ModelManager._calculate_size` (`models.py` lines 178-198). -/
def calcSize (fs : FS) (p : FPath) : Nat :=
  calcSizeFuel fs (linkFuel fs) p

/-- The last name component of a path (`Path.name`). -/
def lastName (p : FPath) : String :=
  match p with
  | [] => ""
  | [x] => x
  | _ :: xs => lastName xs

/-- The parent path (`Path.parent`). -/
def parentPath (p : FPath) : FPath := p.dropLast

end LLMover

namespace LLMover

/-! ## Glob matching and the per-file partition
(`utils.py` `should_keep_local`, `models.py` `_move_with_file_symlinks`). -/

/-- `fnmatch.fnmatch` on POSIX for the shapes of pattern this program
configures: literal characters, `*` (any run) and `?` (any one character).
(The bracket character-class form never occurs in the program's patterns and
is not modelled.)  The fuel argument only makes the recursion structural —
every recursive call shrinks `pattern.length + name.length` by one, so any
fuel above that bound computes the match. -/
def globMatch : Nat → List Char → List Char → Bool
  | 0, _, _ => false
  | _ + 1, [], [] => true
  | _ + 1, [], _ :: _ => false
  | f + 1, '*' :: ps, [] => globMatch f ps []
  | f + 1, '*' :: ps, c :: cs =>
    globMatch f ps (c :: cs) || globMatch f ('*' :: ps) cs
  | _ + 1, '?' :: _, [] => false
  | f + 1, '?' :: ps, _ :: cs => globMatch f ps cs
  | _ + 1, _ :: _, [] => false
  | f + 1, p :: ps, c :: cs => p = c && globMatch f ps cs

/-- `fnmatch.fnmatch(name, pattern)`. -/
def fnmatchB (name pattern : String) : Bool :=
  globMatch (pattern.toList.length + name.toList.length + 1)
    pattern.toList name.toList

/-- `should_keep_local` (`utils.py` lines 614-622), taking the file's name
(`file_path.name`) directly. -/
def should_keep_local (fileName : String) (keepPatterns : List String) : Bool :=
  keepPatterns.any (fun pattern => fnmatchB fileName pattern)

/-- One scanned file: its path and its reported size. -/
abbrev FileEnt := FPath × Nat

/-- The partition loop of `_move_with_file_symlinks` (`models.py` lines
309-317): keep-pattern match keeps the file regardless of size, otherwise
`size >= threshold` moves it, otherwise it is kept.  Returns
`(files_to_move, files_to_keep)` in scan order. -/
def partitionFiles (files : List FileEnt) (sizeThreshold : Nat)
    (keepPatterns : List String) : List FileEnt × List FileEnt :=
  match files with
  | [] => ([], [])
  | f :: rest =>
    let pr := partitionFiles rest sizeThreshold keepPatterns
    if should_keep_local (lastName f.1) keepPatterns then (pr.1, f :: pr.2)
    else if sizeThreshold ≤ f.2 then (f :: pr.1, pr.2)
    else (pr.1, f :: pr.2)

/-- The files a directory walk of `model.path` collects
(`[f for f in model.path.rglob('*') if f.is_file()]` with their sizes). -/
def filesUnder (fs : FS) (p : FPath) : List FileEnt :=
  fs.filterMap (fun e =>
    if strictUnder p e.1 then
      match resolveNode fs (linkFuel fs) e.2 with
      | some (Node.file sz) => some (e.1, sz)
      | _ => none
    else none)

end LLMover

namespace LLMover

/-! ## Model tracking (`models.py` `ModelInfo` / `ModelManager`). -/

/-- The fields of `ModelInfo` the engine consults. -/
structure MInfo where
  name : String
  path : FPath
  publisher : String
  modelName : String
  size_bytes : Nat
  is_symlink : Bool
  linked_to : Option FPath
  has_internal_symlinks : Bool
  internal_symlink_target : Option FPath
  deriving DecidableEq

/-- The manager state the engine consults: the two roots and the tracked
model records (`self._models.values()`). -/
structure Manager where
  localPath : FPath
  usbPath : FPath
  models : List MInfo
  deriving DecidableEq

/-- `get_movable_models` (`models.py` lines 372-374). -/
def get_movable_models (mgr : Manager) : List MInfo :=
  mgr.models.filter (fun m => !m.is_symlink && !m.has_internal_symlinks)

/-- `get_usb_models` (`models.py` lines 376-378). -/
def get_usb_models (mgr : Manager) : List MInfo :=
  mgr.models.filter (fun m => m.is_symlink || m.has_internal_symlinks)

end LLMover

namespace LLMover

/-! ## Integrity verification (`utils.py` `verify_file_integrity`,
`_verify_large_file`, `_calculate_checksum`).

A file is abstracted as presence, a byte size, and its content stream (byte
at each offset).  The MD5 digest comparison of `_calculate_checksum` is
modelled as equality of the two content streams over the (already equal)
size, i.e. the digest is taken as injective. -/

/-- One side of an integrity comparison. -/
structure FileM where
  present : Bool
  size : Nat
  content : Nat → Nat

/-- The two reads `sf.read(k)` / `df.read(k)` at offset `lo` compare equal:
bytewise equality over the next `len` offsets. -/
def readEq (s d : FileM) (lo len : Nat) : Prop :=
  ∀ i, i < len → s.content (lo + i) = d.content (lo + i)

instance (s d : FileM) (lo len : Nat) : Decidable (readEq s d lo len) := by
  unfold readEq; infer_instance

/-- `_verify_large_file` (`utils.py` lines 153-177): compare the first
1 MiB, 1 MiB starting at `file_size // 2`, and the final 1 MiB (the reads
stop at end of file, hence the `min`). -/
def _verify_large_file (s d : FileM) : Prop :=
  readEq s d 0 (min (1024 * 1024) s.size) ∧
  readEq s d (s.size / 2) (min (1024 * 1024) (s.size - s.size / 2)) ∧
  readEq s d (s.size - 1024 * 1024) (1024 * 1024)

instance (s d : FileM) : Decidable (_verify_large_file s d) := by
  unfold _verify_large_file; infer_instance

/-- `_calculate_checksum source == _calculate_checksum destination`
(`utils.py` lines 180-189), with the digest modelled as injective: content
equality over the file's size. -/
def checksumsEq (s d : FileM) : Prop :=
  readEq s d 0 s.size

instance (s d : FileM) : Decidable (checksumsEq s d) := by
  unfold checksumsEq; infer_instance

/-- `verify_file_integrity` (`utils.py` lines 133-150): both must exist,
sizes must agree, and content is compared by 3-point sampling for sizes
strictly above 1 GiB (`source_size > 1024*1024*1024`) and by full digest
otherwise. -/
def verify_file_integrity (s d : FileM) : Prop :=
  if !s.present || !d.present then False
  else if s.size ≠ d.size then False
  else if s.size > 1024 * 1024 * 1024 then _verify_large_file s d
  else checksumsEq s d

instance (s d : FileM) : Decidable (verify_file_integrity s d) := by
  unfold verify_file_integrity; infer_instance

/-- The integrity check exactly as claim C2 words it: sampling applies to
sizes *at or above* 1 GiB, full digest to sizes strictly below. -/
def verify_file_integrity_claimed (s d : FileM) : Prop :=
  if !s.present || !d.present then False
  else if s.size ≠ d.size then False
  else if s.size ≥ 1024 * 1024 * 1024 then _verify_large_file s d
  else checksumsEq s d

end LLMover

namespace LLMover

/-! ## Mount verification (`utils.py` `verify_usb_mounted`).

The probes the function performs against the operating system are collected
in an environment record; the function itself is transcribed branch by
branch.  The inner `except (OSError, PermissionError)` around the
write/read-back/space block and the outer `except Exception` are modelled by
three-valued probe outcomes. -/

/-- `USBVerificationResult` (`utils.py` lines 13-19). -/
structure USBVerificationResult where
  is_mounted : Bool
  is_writable : Bool
  has_space : Bool
  error_message : String
  mount_type : String
  deriving DecidableEq

/-- Outcome of the write-probe block (create, write, fsync, read back):
it succeeds with the read-back comparison result, fails with an
`OSError`/`PermissionError`, or fails with an unexpected exception that
escapes to the outer handler. -/
inductive ProbeOut where
  | ok (readBackEq : Bool)
  | osError
  | unexpected
  deriving DecidableEq

/-- Outcome of the `shutil.disk_usage` call (and the test-file cleanup that
follows it): free bytes, an `OSError`, or an unexpected exception. -/
inductive SpaceOut where
  | ok (free : Nat)
  | osError
  | unexpected
  deriving DecidableEq

/-- What the operating system answers to each probe `verify_usb_mounted`
makes. -/
structure USBEnv where
  pathExists : Bool
  /-- `platform.system()` result. -/
  system : String
  /-- `str(usb_path).startswith('/Volumes/')`. -/
  underVolumes : Bool
  /-- `os.path.ismount(usb_path)`. -/
  isMountPoint : Bool
  /-- some ancestor of the path up to `/Volumes` is a mount point. -/
  ancestorMount : Bool
  writeProbe : ProbeOut
  spaceProbe : SpaceOut
  deriving DecidableEq

/-- The effective mount-point determination of lines 42-65 (shared by the
code transcription and the expected-outcome description). -/
def effectiveMount (env : USBEnv) : Bool :=
  let mp0 : Bool :=
    if env.system = "Darwin" then env.underVolumes && env.isMountPoint
    else env.isMountPoint
  if !mp0 && env.system = "Darwin" then env.ancestorMount || mp0 else mp0

/-- `verify_usb_mounted` (`utils.py` lines 22-130). -/
def verify_usb_mounted (env : USBEnv) (min_space_bytes : Nat) :
    USBVerificationResult :=
  if !env.pathExists then
    { is_mounted := false, is_writable := false, has_space := false
      error_message := "USB path does not exist", mount_type := "not_mounted" }
  else
    -- mount-point determination, lines 42-65
    let mp : Bool := effectiveMount env
    let mt : String := if mp then "mount_point" else "directory"
    -- write probe, lines 67-105
    match env.writeProbe with
    | ProbeOut.unexpected =>
      { is_mounted := false, is_writable := false, has_space := false
        error_message := "USB verification failed", mount_type := "unknown" }
    | ProbeOut.osError =>
      { is_mounted := mp, is_writable := false, has_space := false
        error_message := "Cannot write to USB path", mount_type := mt }
    | ProbeOut.ok readBackEq =>
      let is_writable := readBackEq
      match env.spaceProbe with
      | SpaceOut.unexpected =>
        { is_mounted := false, is_writable := false, has_space := false
          error_message := "USB verification failed", mount_type := "unknown" }
      | SpaceOut.osError =>
        { is_mounted := mp, is_writable := false, has_space := false
          error_message := "Cannot write to USB path", mount_type := mt }
      | SpaceOut.ok free =>
        let has_space := decide (min_space_bytes ≤ free)
        -- final status, lines 107-123
        let msg : String :=
          if !mp then "Path exists but is not a mount point"
          else if !is_writable then "USB is mounted but not writable"
          else if !has_space then "USB is mounted but insufficient space"
          else "USB is properly mounted and accessible"
        { is_mounted := mp, is_writable := is_writable, has_space := has_space
          error_message := msg, mount_type := mt }

/-- The five expected outcomes of §4.1 of the spec, plus the unexpected-error
classification. -/
inductive MountOutcome where
  | notMounted
  | localDirectory
  | notWritable
  | insufficientSpace
  | healthy
  | unknown
  deriving DecidableEq

/-- Reading the classification back off the returned fields alone.  Distinct
expected outcomes land in distinct classifications, which is the
"mutually distinguishable" property of claim C8. -/
def classifyResult (r : USBVerificationResult) : MountOutcome :=
  if r.mount_type = "unknown" then MountOutcome.unknown
  else if r.mount_type = "not_mounted" then MountOutcome.notMounted
  else if !r.is_mounted then MountOutcome.localDirectory
  else if !r.is_writable then MountOutcome.notWritable
  else if !r.has_space then MountOutcome.insufficientSpace
  else MountOutcome.healthy

/-- The outcome §4.1 of the spec expects for a given environment: not
mounted when the path is absent, unknown when a probe fails unexpectedly,
mounted-but-local-directory when the path is no mount point, not writable
when the write probe fails or does not read back, insufficient space when
the free bytes fall short, healthy otherwise. -/
def expectedOutcome (env : USBEnv) (min_space_bytes : Nat) : MountOutcome :=
  if !env.pathExists then MountOutcome.notMounted
  else
    match env.writeProbe with
    | ProbeOut.unexpected => MountOutcome.unknown
    | ProbeOut.osError =>
      if !effectiveMount env then MountOutcome.localDirectory
      else MountOutcome.notWritable
    | ProbeOut.ok readBackEq =>
      match env.spaceProbe with
      | SpaceOut.unexpected => MountOutcome.unknown
      | SpaceOut.osError =>
        if !effectiveMount env then MountOutcome.localDirectory
        else MountOutcome.notWritable
      | SpaceOut.ok free =>
        if !effectiveMount env then MountOutcome.localDirectory
        else if !readBackEq then MountOutcome.notWritable
        else if free < min_space_bytes then MountOutcome.insufficientSpace
        else MountOutcome.healthy

end LLMover

namespace LLMover

/-! ## The verified move with rollback (`utils.py`
`safe_move_with_verification`). -/

/-- `str(path) + suffix`: the sibling whose last name carries the appended
suffix (the transaction's backup path). -/
def backupSib : FPath → String → FPath
  | [], tag => [tag]
  | [x], tag => [x ++ tag]
  | x :: xs, tag => x :: backupSib xs tag

/-- The error `safe_move_with_verification` propagates. -/
inductive SMVErr where
  | usbPrecheckFailed
  | transferError
  | verifyFailed
  deriving DecidableEq

/-- The outcome of the transfer step (lines 273-285): either the move
completes, or the underlying `shutil` operation raises after possibly
leaving partial content below the destination (`leftover`, as paths relative
to the destination) and possibly having already removed the source
(`srcRemains = false`). -/
inductive XferOut where
  | ok
  | fail (leftover : FS) (srcRemains : Bool)
  deriving DecidableEq

/-- Post-transfer verification (`utils.py` lines 287-305): a file must exist
with non-zero size, a directory must contain at least one regular file of
non-zero total size; a path that is neither (absent, or a broken link)
passes both `if` tests vacuously and raises nothing. -/
def smvVerifyOk (fs : FS) (destination : FPath) : Bool :=
  match lookupFS fs destination with
  | none => true
  | some n =>
    match resolveNode fs (linkFuel fs) n with
    | some (Node.file sz) => decide (sz ≠ 0)
    | some Node.dir =>
      decide (dirFileCount fs destination ≠ 0) &&
        decide (dirFilesSize fs destination ≠ 0)
    | _ => true

/-- The recovery block of `safe_move_with_verification` (`utils.py` lines
316-339): delete the destination if it exists; `shutil.move` the backup to
the *source* path if the backup exists; then, if the destination is absent,
move the path `str(destination) + suffix` — the very same backup path, by
now already consumed by the previous step — to the destination.  `backupSet`
records whether the `backup_path` variable was assigned. -/
def smvRecovery (fs : FS) (source destination bakPath : FPath)
    (backupSet : Bool) : FS :=
  let fs1 := if pexists fs destination then removeTree fs destination else fs
  let fs2 := if backupSet && pexists fs1 bakPath then
      shutilMove fs1 bakPath source
    else fs1
  let fs3 := if backupSet && !pexists fs2 destination then
      (if pexists fs2 bakPath then shutilMove fs2 bakPath destination else fs2)
    else fs2
  fs3

/-- `safe_move_with_verification` (`utils.py` lines 250-339).  `monitorOk`
is `none` when no monitor path is supplied and `some b` for the outcome of
the pre-operation USB verification; `pid` is `os.getpid()`.  The monitored
and plain movers differ only in failure modes, both captured by `xfer`. -/
def safe_move_with_verification (fs : FS) (source destination : FPath)
    (pid : String) (monitorOk : Option Bool) (xfer : XferOut) :
    Option SMVErr × FS :=
  let bakPath := backupSib destination (".backup_" ++ pid)
  match monitorOk with
  | some false => (some SMVErr.usbPrecheckFailed, fs)
  | _ =>
    -- create backup if destination exists (lines 269-271)
    let backupSet := pexists fs destination
    let fs1 := if backupSet then shutilMove fs destination bakPath else fs
    match xfer with
    | XferOut.fail leftover srcRemains =>
      let fsF := (if srcRemains then fs1 else removeTree fs1 source) ++
        leftover.map (fun e => (destination ++ e.1, e.2))
      (some SMVErr.transferError,
        smvRecovery fsF source destination bakPath backupSet)
    | XferOut.ok =>
      let fs2 := shutilMove fs1 source destination
      if smvVerifyOk fs2 destination then
        -- clean up backup (lines 307-312)
        let fs3 := if backupSet && pexists fs2 bakPath then
            removeTree fs2 bakPath
          else fs2
        (none, fs3)
      else
        (some SMVErr.verifyFailed,
          smvRecovery fs2 source destination bakPath backupSet)

end LLMover

namespace LLMover

/-! ## Symlink health (`utils.py` `check_symlink_health`). -/

/-- The dictionary `check_symlink_health` returns. -/
structure HealthResult where
  is_symlink : Bool
  pathExists : Bool
  target_exists : Bool
  target_path : Option FPath
  is_broken : Bool
  size_match : Bool
  deriving DecidableEq

/-- `check_symlink_health` (`utils.py` lines 495-527).  `readFails p` says
the `try` block starting at `readlink` raises for path `p` (an I/O error
while reading or resolving the link).  `Path.exists()` follows links, so the
initial `if not symlink_path.exists()` test is resolution-based. -/
def check_symlink_health (fs : FS) (readFails : FPath → Bool)
    (symlinkPath : FPath) : HealthResult :=
  let base : HealthResult :=
    { is_symlink := false
      pathExists := pexists fs symlinkPath
      target_exists := false
      target_path := none
      is_broken := false
      size_match := false }
  if !pexists fs symlinkPath then base
  else
    match lookupFS fs symlinkPath with
    | some (Node.link t) =>
      if readFails symlinkPath then
        { base with is_symlink := true, is_broken := true }
      else
        let tExists := pexists fs t
        if !tExists then
          { base with
              is_symlink := true, target_path := some t
              target_exists := false, is_broken := true }
        else
          -- size comparison, lines 519-523 (stat on both sides follows links)
          let sizeMatch : Bool :=
            match resolveNode fs (linkFuel fs) (Node.link t),
                (lookupFS fs t).bind (resolveNode fs (linkFuel fs)) with
            | some (Node.file a), some (Node.file b) => decide (a = b)
            | some Node.dir, some Node.dir => true
            | _, _ => false
          { base with
              is_symlink := true, target_path := some t
              target_exists := true, size_match := sizeMatch }
    | _ => base

end LLMover

namespace LLMover

/-! ## The relocation wrappers (`models.py`). -/

/-- `Config.MIN_FREE_SPACE_BUFFER` (`config.py` line 222). -/
def MIN_FREE_SPACE_BUFFER : Nat := 1024 * 1024 * 100

/-- The error a relocation or restore raises. -/
inductive MMErr where
  | usbNotMounted
  | usbNotWritable
  | usbNoSpace
  | modelNotFound
  | alreadyOnUsb
  | notOnUsb
  | destinationExists
  | insufficientSpace
  | noEligibleFiles
  | transferFailed
  | verifyFailed
  | brokenResultLink
  | usbTargetMissing
  | noInternalLinks
  | usbPrecheckFailed
  deriving DecidableEq

/-- The symlink strategy `_determine_symlink_strategy` settles on. -/
inductive SymStrategy where
  | directory
  | file
  deriving DecidableEq

/-- `path.is_dir()` (follows links). -/
def statIsDir (fs : FS) (p : FPath) : Bool :=
  match lookupFS fs p with
  | none => false
  | some n =>
    match resolveNode fs (linkFuel fs) n with
    | some Node.dir => true
    | _ => false

/-- Replace the tracked record that was updated in place (the Python code
mutates the `ModelInfo` object held in `self._models`). -/
def updateModel (mgr : Manager) (m2 : MInfo) : Manager :=
  { mgr with models := mgr.models.map (fun x => if x.name = m2.name then m2 else x) }

/-- `_move_with_directory_symlink` (`models.py` lines 335-351): verified
move of the whole entry, then a symlink at the original path, then a health
check of the fresh link. -/
def move_with_directory_symlink (fs : FS) (m : MInfo) (usbDest : FPath)
    (pid : String) (monitorOk : Option Bool) (xfer : XferOut) :
    Option MMErr × FS × MInfo :=
  match safe_move_with_verification fs m.path usbDest pid monitorOk xfer with
  | (some SMVErr.usbPrecheckFailed, fs2) => (some MMErr.usbPrecheckFailed, fs2, m)
  | (some SMVErr.transferError, fs2) => (some MMErr.transferFailed, fs2, m)
  | (some SMVErr.verifyFailed, fs2) => (some MMErr.verifyFailed, fs2, m)
  | (none, fs2) =>
    let fs3 := fs2 ++ [(m.path, Node.link usbDest)]
    let h := check_symlink_health fs3 (fun _ => false) m.path
    if h.is_broken then (some MMErr.brokenResultLink, fs3, m)
    else (none, fs3, { m with is_symlink := true, linked_to := some usbDest })

/-- One iteration of the move loop of `safe_move_with_file_symlinks`
(`utils.py` lines 682-700): ensure the per-file USB parent directory,
move the file, create the symlink. -/
def moveOneFile (modelPath usbDest : FPath) (fs : FS) (f : FileEnt) : FS :=
  let usbTarget := rebasePath modelPath usbDest f.1
  let fs1 := mkdirP fs (parentPath usbTarget)
  let fs2 := shutilMove fs1 f.1 usbTarget
  fs2 ++ [(f.1, Node.link usbTarget)]

/-- `safe_move_with_file_symlinks` (`utils.py` lines 670-725), success path:
create the USB directory and process the move set in order.  (The per-file
link verification and the in-batch rollback of lines 698-725 fire only on
I/O failures, which no claim exercises.) -/
def safe_move_with_file_symlinks (fs : FS) (modelPath usbDest : FPath)
    (toMove : List FileEnt) : FS :=
  let fs1 := mkdirP fs usbDest
  toMove.foldl (moveOneFile modelPath usbDest) fs1

/-- `_move_with_file_symlinks` (`models.py` lines 292-333): non-directories
fall back to the whole-directory strategy; otherwise the contained files are
partitioned and an empty move set raises before anything is touched. -/
def move_with_file_symlinks (fs : FS) (m : MInfo) (usbDest : FPath)
    (sizeThreshold : Nat) (keepPatterns : List String)
    (pid : String) (monitorOk : Option Bool) (xfer : XferOut) :
    Option MMErr × FS × MInfo :=
  if !statIsDir fs m.path then
    move_with_directory_symlink fs m usbDest pid monitorOk xfer
  else
    let allFiles := filesUnder fs m.path
    let pr := partitionFiles allFiles sizeThreshold keepPatterns
    if pr.1.isEmpty then (some MMErr.noEligibleFiles, fs, m)
    else
      let fs2 := safe_move_with_file_symlinks fs m.path usbDest pr.1
      (none, fs2,
        { m with has_internal_symlinks := true,
                 internal_symlink_target := some usbDest })

/-- `move_model_to_usb` (`models.py` lines 384-452).  `env` drives the
pre-flight `refresh_usb_status`, `usbFree` is what `shutil.disk_usage`
reports for the USB root, `strategy` the result of
`_determine_symlink_strategy`, and `sizeThreshold`/`keepPatterns` the
configuration for per-file moves.  (`estimate_copy_time` writes and removes
a probe file below the USB root, a net identity on the filesystem.)  The
recovery of lines 444-452 moves the destination back when the source
vanished; it is modelled as the plain move it performs on success. -/
def move_model_to_usb (mgr : Manager) (fs : FS) (env : USBEnv) (usbFree : Nat)
    (strategy : SymStrategy) (sizeThreshold : Nat) (keepPatterns : List String)
    (pid : String) (monitorOk : Option Bool) (xfer : XferOut)
    (modelName : String) : Option MMErr × FS × Manager :=
  let status := verify_usb_mounted env (1024 * 1024 * 100)
  if !status.is_mounted then (some MMErr.usbNotMounted, fs, mgr)
  else if !status.is_writable then (some MMErr.usbNotWritable, fs, mgr)
  else if !status.has_space then (some MMErr.usbNoSpace, fs, mgr)
  else
    match mgr.models.find? (fun m => m.name = modelName) with
    | none => (some MMErr.modelNotFound, fs, mgr)
    | some m =>
      if m.is_symlink then (some MMErr.alreadyOnUsb, fs, mgr)
      else
        -- destination path with publisher structure (lines 402-410)
        let usbDest := if m.publisher ≠ "" then
            mgr.usbPath ++ [m.publisher, m.modelName]
          else mgr.usbPath ++ [m.modelName]
        let fs1 := if m.publisher ≠ "" then
            mkdirP fs (mgr.usbPath ++ [m.publisher])
          else fs
        -- destination-exists check (lines 413-414)
        if pexists fs1 usbDest then (some MMErr.destinationExists, fs1, mgr)
        -- space check with buffer (lines 417-421)
        else if usbFree < m.size_bytes + MIN_FREE_SPACE_BUFFER then
          (some MMErr.insufficientSpace, fs1, mgr)
        else
          let r := match strategy with
            | SymStrategy.file =>
              move_with_file_symlinks fs1 m usbDest sizeThreshold keepPatterns
                pid monitorOk xfer
            | SymStrategy.directory =>
              move_with_directory_symlink fs1 m usbDest pid monitorOk xfer
          match r with
          | (none, fs2, m2) => (none, fs2, updateModel mgr m2)
          | (some e, fs2, m2) =>
            let fs3 := if pexists fs2 usbDest && !pexists fs2 m.path then
                shutilMove fs2 usbDest m.path
              else fs2
            (some e, fs3, updateModel mgr m2)

end LLMover

namespace LLMover

/-! ## The restore direction (`utils.py` `safe_restore_from_usb`,
`safe_restore_internal_symlinks`; `models.py` `move_model_from_usb`). -/

/-- The error `safe_restore_from_usb` raises. -/
inductive RSErr where
  | symlinkPathMissing
  | notASymlink
  | usbSourceMissing
  | destOccupied
  | verifyFailed
  deriving DecidableEq

/-- Whether the stored node is a symlink (`Path.is_symlink()`, no
following). -/
def isLinkNode : Option Node → Bool
  | some (Node.link _) => true
  | _ => false

/-- The recovery block of `safe_restore_from_usb` (`utils.py` lines
398-415): move the local destination back to the USB source if both sides
permit, then restore the symlink from its backup (removing any partial
object at the symlink path first). -/
def rsfRecovery (fs : FS) (symlinkPath usbSource localDest bakPath : FPath)
    (backupSet : Bool) : FS :=
  let fs1 := if pexists fs localDest && pexists fs (parentPath usbSource) then
      shutilMove fs localDest usbSource
    else fs
  let fs2 := if backupSet && pexists fs1 bakPath then
      (let fs1a := if pexists fs1 symlinkPath then removeEntry fs1 symlinkPath
        else fs1
       shutilMove fs1a bakPath symlinkPath)
    else fs1
  fs2

/-- `safe_restore_from_usb` (`utils.py` lines 342-415): validate, back the
symlink object itself up (a `copy2` without following), remove it, move the
payload back, verify, and only then drop the backup.  Any raise runs the
recovery block first.  Note the final backup cleanup tests
`backup_symlink.exists()`, which *follows* the copied link — whose target
was just moved away — so the backup object in fact survives a successful
restore. -/
def safe_restore_from_usb (fs : FS) (symlinkPath usbSource localDest : FPath)
    (pid : String) : Option RSErr × FS :=
  let bakPath := backupSib symlinkPath (".backup_" ++ pid)
  if !pexists fs symlinkPath then
    (some RSErr.symlinkPathMissing,
      rsfRecovery fs symlinkPath usbSource localDest bakPath false)
  else if !isLinkNode (lookupFS fs symlinkPath) then
    (some RSErr.notASymlink,
      rsfRecovery fs symlinkPath usbSource localDest bakPath false)
  else if !pexists fs usbSource then
    (some RSErr.usbSourceMissing,
      rsfRecovery fs symlinkPath usbSource localDest bakPath false)
  else if pexists fs localDest && !isLinkNode (lookupFS fs localDest) then
    (some RSErr.destOccupied,
      rsfRecovery fs symlinkPath usbSource localDest bakPath false)
  else
    -- backup of the symlink object (lines 358-364)
    let fs1 := if pexists fs bakPath then removeEntry fs bakPath else fs
    let fs2 := match lookupFS fs1 symlinkPath with
      | some n => fs1 ++ [(bakPath, n)]
      | none => fs1
    -- remove the symlink and move the payload back (lines 366-370)
    let fs3 := removeEntry fs2 symlinkPath
    let fs4 := shutilMove fs3 usbSource localDest
    -- verification (lines 372-390, identical in shape to the move's)
    if smvVerifyOk fs4 localDest then
      let fs5 := if pexists fs4 bakPath then removeEntry fs4 bakPath else fs4
      (none, fs5)
    else
      (some RSErr.verifyFailed,
        rsfRecovery fs4 symlinkPath usbSource localDest bakPath true)

/-- The internal links `safe_restore_internal_symlinks` collects (`utils.py`
lines 421-432): regular-file symlinks below the model directory whose
resolved target sits directly in the USB source directory.  (`resolve()` is
the recorded target for the one-level links this program creates.) -/
def internalLinksOf (fs : FS) (modelDir usbSrcDir : FPath) :
    List (FPath × FPath) :=
  fs.filterMap (fun e =>
    match e.2 with
    | Node.link t =>
      if strictUnder modelDir e.1 && statIsFile fs e.2 &&
          decide (parentPath t = usbSrcDir) then
        some (e.1, t)
      else none
    | _ => none)

/-- The per-link loop of `safe_restore_internal_symlinks` (`utils.py` lines
438-466), success path: back the link up, unlink it, copy the USB file back
into place, verify a non-zero size.  A zero-size copy or a vanished USB file
raises (the loop's own backup-restoring rollback is then not modelled
further: no claim exercises it). -/
def restoreInternalLoop (pid : String) :
    FS → List (FPath × FPath) → Option FS
  | fs, [] => some fs
  | fs, (q, t) :: rest =>
    let bak := backupSib q (".backup_" ++ pid)
    let fs1 := fs ++ [(bak, Node.link t)]
    let fs2 := removeEntry fs1 q
    match lookupFS fs2 t with
    | some (Node.file sz) =>
      if sz = 0 then none
      else restoreInternalLoop pid (fs2 ++ [(q, Node.file sz)]) rest
    | _ => none

/-- `safe_restore_internal_symlinks` (`utils.py` lines 418-492): collect the
internal links, refuse when none are found, copy every target back, drop the
link backups, unlink the USB files, and remove the USB directory if it ended
up empty. -/
def safe_restore_internal_symlinks (fs : FS) (modelDir usbSrcDir : FPath)
    (pid : String) : Option MMErr × FS :=
  let links := internalLinksOf fs modelDir usbSrcDir
  if links.isEmpty then (some MMErr.noInternalLinks, fs)
  else
    match restoreInternalLoop pid fs links with
    | none => (some MMErr.verifyFailed, fs)
    | some fsA =>
      -- clean up backup files (lines 468-471)
      let fsB := links.foldl
        (fun acc l =>
          let bak := backupSib l.1 (".backup_" ++ pid)
          if pexists acc bak then removeEntry acc bak else acc) fsA
      -- remove the moved files from USB (lines 473-479)
      let fsC := links.foldl (fun acc l => removeEntry acc l.2) fsB
      -- remove the now-empty USB directory (lines 481-487)
      let fsD := if pexists fsC usbSrcDir &&
          fsC.all (fun e => !strictUnder usbSrcDir e.1) then
          removeEntry fsC usbSrcDir
        else fsC
      (none, fsD)

/-- Map the restore helper's raise into the wrapper's `RuntimeError`. -/
def rsErrToMM : RSErr → MMErr
  | RSErr.verifyFailed => MMErr.verifyFailed
  | _ => MMErr.usbTargetMissing

/-- `move_model_from_usb` (`models.py` lines 454-519).  `env` drives the
pre-flight `refresh_usb_status`, `localFree` is what `shutil.disk_usage`
reports for the local root. -/
def move_model_from_usb (mgr : Manager) (fs : FS) (env : USBEnv)
    (localFree : Nat) (pid : String) (modelName : String) :
    Option MMErr × FS × Manager :=
  match mgr.models.find? (fun m => m.name = modelName) with
  | none => (some MMErr.modelNotFound, fs, mgr)
  | some m =>
    if !m.is_symlink && !m.has_internal_symlinks then
      (some MMErr.notOnUsb, fs, mgr)
    else
      let status := verify_usb_mounted env (1024 * 1024 * 100)
      if !status.is_mounted then (some MMErr.usbNotMounted, fs, mgr)
      else if !status.is_writable then (some MMErr.usbNotWritable, fs, mgr)
      else
        -- locate and validate the USB source (lines 470-481)
        match (if m.is_symlink then m.linked_to else m.internal_symlink_target) with
        | none => (some MMErr.usbTargetMissing, fs, mgr)
        | some usbSource =>
          if !pexists fs usbSource then (some MMErr.usbTargetMissing, fs, mgr)
          -- local space check (lines 483-488)
          else if localFree < m.size_bytes + MIN_FREE_SPACE_BUFFER then
            (some MMErr.insufficientSpace, fs, mgr)
          else if m.is_symlink then
            match safe_restore_from_usb fs m.path usbSource m.path pid with
            | (none, fs2) =>
              (none, fs2,
                updateModel mgr { m with is_symlink := false, linked_to := none })
            | (some e, fs2) => (some (rsErrToMM e), fs2, mgr)
          else
            match safe_restore_internal_symlinks fs m.path usbSource pid with
            | (none, fs2) =>
              (none, fs2,
                updateModel mgr
                  { m with has_internal_symlinks := false
                           internal_symlink_target := none })
            | (some e, fs2) => (some e, fs2, mgr)

end LLMover

namespace LLMover

/-! ## Symlink repair (`models.py` `repair_broken_symlinks`, lines 770-796 —
the class body defines the method twice and this later definition is the one
Python keeps). -/

/-- One iteration of the repair loop: tracked symlinked models whose health
reports `is_broken`, or whose target does not exist, have their link
unlinked.  `Path.unlink` raises on a missing path or a directory (the
`except` arm records a failure and removes nothing). -/
def repairStep (readFails : FPath → Bool)
    (acc : List (String × String) × FS) (m : MInfo) :
    List (String × String) × FS :=
  let results := acc.1
  let fs := acc.2
  if m.is_symlink then
    let h := check_symlink_health fs readFails m.path
    if h.is_broken then
      match lookupFS fs m.path with
      | some (Node.file _) =>
        (results ++ [(m.name, "Removed broken symlink")], removeEntry fs m.path)
      | some (Node.link _) =>
        (results ++ [(m.name, "Removed broken symlink")], removeEntry fs m.path)
      | _ => (results ++ [(m.name, "Failed to remove")], fs)
    else if !h.target_exists then
      match lookupFS fs m.path with
      | some (Node.file _) =>
        (results ++ [(m.name, "Removed symlink to missing target")],
          removeEntry fs m.path)
      | some (Node.link _) =>
        (results ++ [(m.name, "Removed symlink to missing target")],
          removeEntry fs m.path)
      | _ => (results ++ [(m.name, "Failed to remove")], fs)
    else (results, fs)
  else (results, fs)

/-- `repair_broken_symlinks` (`models.py` lines 770-796): walk the tracked
models and unlink every symlinked model classified broken or whose target
does not exist.  `readFails` injects I/O failures into the health check's
`readlink`/resolve block. -/
def repair_broken_symlinks (mgr : Manager) (fs : FS)
    (readFails : FPath → Bool) : List (String × String) × FS :=
  mgr.models.foldl (repairStep readFails) ([], fs)

end LLMover

namespace LLMover

/-! ## Shared lemmas about the per-file partition. -/

/-- Membership in the move half of the partition: a scanned file lands in
`files_to_move` exactly when no keep pattern matches it and its size meets
the threshold. -/
theorem mem_partition_move (files : List FileEnt) (thr : Nat)
    (pats : List String) (f : FileEnt) :
    f ∈ (partitionFiles files thr pats).1 ↔
      f ∈ files ∧ should_keep_local (lastName f.1) pats = false ∧ thr ≤ f.2 := by
  induction files with
  | nil => simp [partitionFiles]
  | cons g rest ih =>
    by_cases h1 : should_keep_local (lastName g.1) pats
    · simp only [partitionFiles, if_pos h1, List.mem_cons]
      constructor
      · intro hm
        exact ⟨Or.inr (ih.mp hm).1, (ih.mp hm).2.1, (ih.mp hm).2.2⟩
      · rintro ⟨hf | hf, hk, hs⟩
        · rw [hf] at hk; rw [h1] at hk; cases hk
        · exact ih.mpr ⟨hf, hk, hs⟩
    · by_cases h2 : thr ≤ g.2
      · simp only [partitionFiles, if_neg h1, if_pos h2, List.mem_cons]
        constructor
        · rintro (hf | hm)
          · refine ⟨Or.inl hf, ?_, ?_⟩
            · rw [hf]; exact Bool.not_eq_true _ ▸ (by simpa using h1)
            · rw [hf]; exact h2
          · exact ⟨Or.inr (ih.mp hm).1, (ih.mp hm).2.1, (ih.mp hm).2.2⟩
        · rintro ⟨hf | hf, hk, hs⟩
          · exact Or.inl hf
          · exact Or.inr (ih.mpr ⟨hf, hk, hs⟩)
      · simp only [partitionFiles, if_neg h1, if_neg h2, List.mem_cons]
        constructor
        · intro hm
          exact ⟨Or.inr (ih.mp hm).1, (ih.mp hm).2.1, (ih.mp hm).2.2⟩
        · rintro ⟨hf | hf, hk, hs⟩
          · rw [hf] at hs; exact absurd hs h2
          · exact ih.mpr ⟨hf, hk, hs⟩

/-- Membership in the keep half of the partition: a scanned file is kept
exactly when a keep pattern matches it or its size falls short. -/
theorem mem_partition_keep (files : List FileEnt) (thr : Nat)
    (pats : List String) (f : FileEnt) :
    f ∈ (partitionFiles files thr pats).2 ↔
      f ∈ files ∧ (should_keep_local (lastName f.1) pats = true ∨ f.2 < thr) := by
  induction files with
  | nil => simp [partitionFiles]
  | cons g rest ih =>
    by_cases h1 : should_keep_local (lastName g.1) pats
    · simp only [partitionFiles, if_pos h1, List.mem_cons]
      constructor
      · rintro (hf | hm)
        · exact ⟨Or.inl hf, Or.inl (hf ▸ h1)⟩
        · exact ⟨Or.inr (ih.mp hm).1, (ih.mp hm).2⟩
      · rintro ⟨hf | hf, hk⟩
        · exact Or.inl hf
        · exact Or.inr (ih.mpr ⟨hf, hk⟩)
    · by_cases h2 : thr ≤ g.2
      · simp only [partitionFiles, if_neg h1, if_pos h2, List.mem_cons]
        constructor
        · intro hm
          exact ⟨Or.inr (ih.mp hm).1, (ih.mp hm).2⟩
        · rintro ⟨hf | hf, hk⟩
          · rcases hk with hk | hk
            · rw [hf] at hk; exact absurd hk h1
            · rw [hf] at hk; omega
          · exact ih.mpr ⟨hf, hk⟩
      · simp only [partitionFiles, if_neg h1, if_neg h2, List.mem_cons]
        constructor
        · rintro (hf | hm)
          · exact ⟨Or.inl hf, Or.inr (by rw [hf]; omega)⟩
          · exact ⟨Or.inr (ih.mp hm).1, (ih.mp hm).2⟩
        · rintro ⟨hf | hf, hk⟩
          · exact Or.inl hf
          · exact Or.inr (ih.mpr ⟨hf, hk⟩)

end LLMover

namespace LLMover

/-! ## Claim theorems: tracking, partition, failure handling. -/

/-- C10: at every state of the manager the movable list and the on-USB list
partition the tracked model set — a tracked model is movable exactly when it
is neither a whole-directory link nor carries internal per-file links, it is
listed on USB exactly otherwise, it appears in one of the two lists, and
never in both. -/
theorem C10_tracked_partition (mgr : Manager) (m : MInfo)
    (hm : m ∈ mgr.models) :
    (m ∈ get_movable_models mgr ↔
      (m.is_symlink = false ∧ m.has_internal_symlinks = false)) ∧
    (m ∈ get_usb_models mgr ↔
      (m.is_symlink = true ∨ m.has_internal_symlinks = true)) ∧
    (m ∈ get_movable_models mgr ∨ m ∈ get_usb_models mgr) ∧
    ¬ (m ∈ get_movable_models mgr ∧ m ∈ get_usb_models mgr) := by
  unfold get_movable_models get_usb_models
  simp only [List.mem_filter, hm, true_and]
  cases hs : m.is_symlink <;> cases hh : m.has_internal_symlinks <;> simp

/-- A tracked model for the concrete witness states. -/
def wModel : MInfo :=
  { name := "pub/model", path := ["local", "pub", "model"], publisher := "pub"
    modelName := "model", size_bytes := 5, is_symlink := false
    linked_to := none, has_internal_symlinks := false
    internal_symlink_target := none }

/-- A one-model manager for the concrete witness states. -/
def wManager : Manager :=
  { localPath := ["local"], usbPath := ["usb"], models := [wModel] }

/-- Witness for C10 at a concrete manager state. -/
theorem C10_tracked_partition_witness :
    wModel ∈ wManager.models ∧
    wModel ∈ get_movable_models wManager ∧ wModel ∉ get_usb_models wManager := by
  have h := C10_tracked_partition wManager wModel (by decide)
  exact ⟨by decide, h.1.mpr ⟨rfl, rfl⟩,
    fun hu => h.2.2.2 ⟨h.1.mpr ⟨rfl, rfl⟩, hu⟩⟩

/-- C3: in the per-file partition, a file matching a keep-local glob is kept
regardless of size (and never moved); otherwise the file is moved exactly
when its size is at or above the threshold — so equality with the threshold
moves it (inclusive bound). -/
theorem C3_per_file_partition (files : List FileEnt) (thr : Nat)
    (pats : List String) (f : FileEnt) (hf : f ∈ files) :
    (should_keep_local (lastName f.1) pats = true →
      f ∈ (partitionFiles files thr pats).2 ∧
        f ∉ (partitionFiles files thr pats).1) ∧
    (should_keep_local (lastName f.1) pats = false →
      (f ∈ (partitionFiles files thr pats).1 ↔ thr ≤ f.2)) := by
  constructor
  · intro hk
    refine ⟨(mem_partition_keep files thr pats f).mpr ⟨hf, Or.inl hk⟩, ?_⟩
    intro hmv
    have h2 := (mem_partition_move files thr pats f).mp hmv
    rw [hk] at h2
    cases h2.2.1
  · intro hk
    constructor
    · intro hmv
      exact ((mem_partition_move files thr pats f).mp hmv).2.2
    · intro hs
      exact (mem_partition_move files thr pats f).mpr ⟨hf, hk, hs⟩

/-- Witness for C3: a file whose size equals the threshold exactly, and
which matches no keep pattern, lands in the move set. -/
theorem C3_per_file_partition_witness :
    ((["model", "big.gguf"] : FPath), 100) ∈
      (partitionFiles [((["model", "big.gguf"] : FPath), 100)] 100
        ["*.json", "tokenizer*"]).1 :=
  ((C3_per_file_partition
      [((["model", "big.gguf"] : FPath), 100)] 100 ["*.json", "tokenizer*"]
      ((["model", "big.gguf"] : FPath), 100) (by decide)).2 (by decide)).mpr
    (by decide)

/-- C5: when every scanned file of a directory entry either matches a
keep-local pattern or falls below the size threshold, the per-file move
raises the no-eligible-files error and returns with the filesystem and the
tracked record unchanged — nothing moved, no link created. -/
theorem C5_empty_move_set (fs : FS) (m : MInfo) (usbDest : FPath) (thr : Nat)
    (pats : List String) (pid : String) (monitorOk : Option Bool)
    (xfer : XferOut) (hdir : statIsDir fs m.path = true)
    (hall : ∀ f ∈ filesUnder fs m.path,
      should_keep_local (lastName f.1) pats = true ∨ f.2 < thr) :
    move_with_file_symlinks fs m usbDest thr pats pid monitorOk xfer =
      (some MMErr.noEligibleFiles, fs, m) := by
  unfold move_with_file_symlinks
  rw [hdir]
  have hempty : (partitionFiles (filesUnder fs m.path) thr pats).1 = [] := by
    rw [List.eq_nil_iff_forall_not_mem]
    intro f hfm
    have h2 := (mem_partition_move (filesUnder fs m.path) thr pats f).mp hfm
    rcases hall f h2.1 with hk | hs
    · rw [h2.2.1] at hk; cases hk
    · have := h2.2.2; omega
  simp [hempty]

/-- The directory state for the C5 witness: one small file below the
entry. -/
def c5fs : FS := [(["m"], Node.dir), (["m", "a.bin"], Node.file 5)]

/-- The tracked record for the C5 witness. -/
def c5m : MInfo :=
  { name := "m", path := ["m"], publisher := "", modelName := "m"
    size_bytes := 5, is_symlink := false, linked_to := none
    has_internal_symlinks := false, internal_symlink_target := none }

/-- Witness for C5 at a concrete state: the single contained file is below
the threshold, so the per-file move fails with no-eligible-files and leaves
everything unchanged. -/
theorem C5_empty_move_set_witness :
    move_with_file_symlinks c5fs c5m ["usb", "m"] 10 [] "1" none XferOut.ok =
      (some MMErr.noEligibleFiles, c5fs, c5m) := by
  refine C5_empty_move_set c5fs c5m ["usb", "m"] 10 [] "1" none XferOut.ok
    (by decide) ?_
  intro f hfm
  have hl : filesUnder c5fs c5m.path = [((["m", "a.bin"] : FPath), 5)] := by
    decide
  rw [hl] at hfm
  rcases List.mem_singleton.mp hfm with rfl
  exact Or.inr (by decide)

/-- The failing input for C7: a symlink whose recorded (absolute) target
does not exist. -/
def c7fs : FS := [(["models", "m"], Node.link ["usb", "gone"])]

/-- C7: the health check does not classify a genuinely broken symlink as
broken.  `Path.exists()` follows links, so for a link whose target is gone
the function returns at its first test with the default record —
`is_broken = false` and even `is_symlink = false` — although the path *is* a
symlink and its recorded target does not exist.  This refutes the claim that
a symlink is classified broken exactly when its target does not exist. -/
theorem C7_broken_link_not_flagged :
    isLinkNode (lookupFS c7fs ["models", "m"]) = true ∧
    lookupFS c7fs ["usb", "gone"] = none ∧
    (check_symlink_health c7fs (fun _ => false) ["models", "m"]).is_broken
      = false ∧
    (check_symlink_health c7fs (fun _ => false) ["models", "m"]).is_symlink
      = false := by
  decide

/-- The failing input for C1: a source file of size 5, a pre-existing
destination file of size 7 (renamed aside as the transaction's backup), and
a transfer step that raises while leaving no partial destination and the
source in place. -/
def c1fs : FS := [(["src"], Node.file 5), (["dst"], Node.file 7)]

/-- C1: on a transfer failure after the pre-existing destination was backed
up, the recovery deletes any partial destination and re-raises the original
error, but it moves the backup to the *source* path (the `shutil.move
(backup_path, source)` of line 328 — which here replaces the size-5 source
file with the size-7 backup), and the subsequent restore-to-destination
branch finds the backup already consumed: afterwards nothing exists at the
destination.  This refutes the claim that the pre-existing backup is
restored to its original name, the destination path. -/
theorem C1_backup_not_restored_to_destination :
    safe_move_with_verification c1fs ["src"] ["dst"] "1" none
        (XferOut.fail [] true) =
      (some SMVErr.transferError, [(["src"], Node.file 7)]) ∧
    lookupFS (safe_move_with_verification c1fs ["src"] ["dst"] "1" none
        (XferOut.fail [] true)).2 ["dst"] = none ∧
    lookupFS (safe_move_with_verification c1fs ["src"] ["dst"] "1" none
        (XferOut.fail [] true)).2 ["src"] = some (Node.file 7) := by
  decide

end LLMover

namespace LLMover

/-! ## Claim theorems: integrity verification and mount verification. -/

/-- The source side of the C2 counterexample: exactly 1 GiB, all zero bytes
except one byte at offset 2 MiB — outside all three sample windows. -/
def c2src : FileM :=
  { present := true, size := 1073741824
    content := fun i => if i = 2097152 then 1 else 0 }

/-- The destination side of the C2 counterexample: exactly 1 GiB of zero
bytes. -/
def c2dst : FileM :=
  { present := true, size := 1073741824, content := fun _ => 0 }

/-- C2 counterexample: at a size of exactly 1 GiB the claim prescribes the
3-point sample comparison (which passes on these two files: they agree on
all three windows), but the code takes the full-digest branch — its gate is
`size > 1 GiB`, strict — and rejects them, because the byte at offset 2 MiB
differs.  So "at or above 1 GiB it compares only three 1 MiB samples" is
false at the boundary. -/
theorem C2_boundary_counterexample :
    verify_file_integrity_claimed c2src c2dst ∧
    ¬ verify_file_integrity c2src c2dst := by
  constructor
  · show _verify_large_file c2src c2dst
    refine ⟨?_, ?_, ?_⟩
    · intro i hi
      norm_num [c2src] at hi
      have hne : 0 + i ≠ 2097152 := by omega
      simp only [c2src, c2dst, if_neg hne]
    · intro i hi
      have hne : c2src.size / 2 + i ≠ 2097152 := by
        norm_num [c2src]; omega
      simp only [c2src, c2dst] at hne ⊢
      rw [if_neg hne]
    · intro i hi
      have hne : c2src.size - 1024 * 1024 + i ≠ 2097152 := by
        norm_num [c2src]; omega
      simp only [c2src, c2dst] at hne ⊢
      rw [if_neg hne]
  · intro h
    have h2 : checksumsEq c2src c2dst := h
    have h3 := h2 2097152 (by norm_num [c2src])
    norm_num [c2src, c2dst] at h3

/-- C2 as amended — no more than the counterexample forces: sizes must
agree; full digest comparison applies to sizes *at or below* 1 GiB; the
3-point sample applies to sizes *strictly above* 1 GiB. -/
theorem C2_size_gate_amended (s d : FileM)
    (hs : s.present = true) (hd : d.present = true) :
    (s.size ≠ d.size → ¬ verify_file_integrity s d) ∧
    (s.size = d.size → s.size ≤ 1024 * 1024 * 1024 →
      (verify_file_integrity s d ↔ checksumsEq s d)) ∧
    (s.size = d.size → 1024 * 1024 * 1024 < s.size →
      (verify_file_integrity s d ↔ _verify_large_file s d)) := by
  unfold verify_file_integrity
  refine ⟨?_, ?_, ?_⟩
  · intro hne
    rw [if_neg (by simp [hs, hd]), if_pos hne]
    exact not_false
  · intro he hle
    rw [if_neg (by simp [hs, hd]), if_neg (by omega), if_neg (by omega)]
  · intro he hgt
    rw [if_neg (by simp [hs, hd]), if_neg (by omega), if_pos (by omega)]

/-- A small concrete file for the C2 witness. -/
def c2w : FileM := { present := true, size := 4, content := fun _ => 7 }

/-- Witness for C2 (amended) at a concrete small file. -/
theorem C2_size_gate_amended_witness :
    (c2w.size ≠ c2w.size → ¬ verify_file_integrity c2w c2w) ∧
    (c2w.size = c2w.size → c2w.size ≤ 1024 * 1024 * 1024 →
      (verify_file_integrity c2w c2w ↔ checksumsEq c2w c2w)) ∧
    (c2w.size = c2w.size → 1024 * 1024 * 1024 < c2w.size →
      (verify_file_integrity c2w c2w ↔ _verify_large_file c2w c2w)) :=
  C2_size_gate_amended c2w c2w rfl rfl

/-- C8: mount verification is a total function into a status record — it
never raises — and reading the returned fields back always reproduces the
outcome the environment prescribes, so the expected outcomes (not mounted /
mounted-but-local-directory / not writable / insufficient space / healthy)
are mutually distinguishable; an unexpected probe error yields the "unknown"
mount type with every success flag false rather than a successful status. -/
theorem C8_mount_verification (env : USBEnv) (minb : Nat) :
    classifyResult (verify_usb_mounted env minb) = expectedOutcome env minb ∧
    ((verify_usb_mounted env minb).mount_type = "unknown" →
      (verify_usb_mounted env minb).is_mounted = false ∧
      (verify_usb_mounted env minb).is_writable = false ∧
      (verify_usb_mounted env minb).has_space = false) := by
  cases hpe : env.pathExists
  · simp [verify_usb_mounted, expectedOutcome, classifyResult, hpe]
  · cases hwp : env.writeProbe
    case ok rb =>
      cases hsp : env.spaceProbe
      case ok free =>
        cases hmp : effectiveMount env
        · cases rb <;>
            rcases Nat.lt_or_ge free minb with hfs | hfs <;>
              simp [verify_usb_mounted, expectedOutcome, classifyResult,
                hpe, hwp, hsp, hmp, Nat.not_le.mpr, hfs, Nat.not_lt.mpr]
        · cases rb <;>
            rcases Nat.lt_or_ge free minb with hfs | hfs <;>
              simp [verify_usb_mounted, expectedOutcome, classifyResult,
                hpe, hwp, hsp, hmp, Nat.not_le.mpr, hfs, Nat.not_lt.mpr]
      case osError =>
        cases hmp : effectiveMount env <;>
          simp [verify_usb_mounted, expectedOutcome, classifyResult,
            hpe, hwp, hsp, hmp]
      case unexpected =>
        simp [verify_usb_mounted, expectedOutcome, classifyResult,
          hpe, hwp, hsp]
    case osError =>
      cases hmp : effectiveMount env <;>
        simp [verify_usb_mounted, expectedOutcome, classifyResult,
          hpe, hwp, hmp]
    case unexpected =>
      simp [verify_usb_mounted, expectedOutcome, classifyResult, hpe, hwp]

end LLMover

namespace LLMover

/-! ## Lemmas about the filesystem model. -/

/-- Unfolding lookup one entry at a time. -/
theorem lookupFS_cons (a : FPath × Node) (as : FS) (q : FPath) :
    lookupFS (a :: as) q = if a.1 = q then some a.2 else lookupFS as q := by
  unfold lookupFS
  rw [List.find?_cons]
  by_cases h : a.1 = q <;> simp [h]

/-- Lookup distributes over append: the left list takes priority. -/
theorem lookupFS_append (fs1 fs2 : FS) (q : FPath) :
    lookupFS (fs1 ++ fs2) q = (lookupFS fs1 q).or (lookupFS fs2 q) := by
  unfold lookupFS
  rw [List.find?_append]
  cases List.find? (fun e => e.1 = q) fs1 <;> simp

/-- Appending one fresh entry does not change lookups elsewhere. -/
theorem lookupFS_append_single_ne (fs : FS) (p : FPath) (n : Node) (q : FPath)
    (h : q ≠ p) : lookupFS (fs ++ [(p, n)]) q = lookupFS fs q := by
  rw [lookupFS_append]
  have h1 : lookupFS [(p, n)] q = none := by
    rw [show ([(p, n)] : FS) = (p, n) :: [] from rfl, lookupFS_cons,
      if_neg (fun hh => h (Eq.symm hh))]
    rfl
  rw [h1]
  cases lookupFS fs q <;> rfl

/-- `mkdirP` changes no lookup away from the created path. -/
theorem lookupFS_mkdirP_ne (fs : FS) (p q : FPath) (h : q ≠ p) :
    lookupFS (mkdirP fs p) q = lookupFS fs q := by
  unfold mkdirP
  cases lookupFS fs p
  · exact lookupFS_append_single_ne fs p Node.dir q h
  · rfl

/-- Removing one entry splits on whether the head survives. -/
theorem removeEntry_cons (a : FPath × Node) (as : FS) (p : FPath) :
    removeEntry (a :: as) p =
      if a.1 = p then removeEntry as p else a :: removeEntry as p := by
  by_cases hap : a.1 = p <;> simp [removeEntry, List.filter_cons, hap]

/-- `removeEntry` changes no lookup away from the removed path. -/
theorem lookupFS_removeEntry_ne (fs : FS) (p q : FPath) (h : q ≠ p) :
    lookupFS (removeEntry fs p) q = lookupFS fs q := by
  induction fs with
  | nil => rfl
  | cons a as ih =>
    rw [removeEntry_cons]
    by_cases hap : a.1 = p
    · rw [if_pos hap, ih, lookupFS_cons,
        if_neg (fun hh : a.1 = q => h ((Eq.symm hh).trans hap))]
    · rw [if_neg hap, lookupFS_cons, lookupFS_cons]
      by_cases haq : a.1 = q
      · rw [if_pos haq, if_pos haq]
      · rw [if_neg haq, if_neg haq, ih]

/-- Lookup at the removed path is gone. -/
theorem lookupFS_removeEntry_self (fs : FS) (p : FPath) :
    lookupFS (removeEntry fs p) p = none := by
  induction fs with
  | nil => rfl
  | cons a as ih =>
    rw [removeEntry_cons]
    by_cases hap : a.1 = p
    · rw [if_pos hap]; exact ih
    · rw [if_neg hap, lookupFS_cons, if_neg hap]; exact ih

/-- A non-link node resolves to itself at any fuel. -/
theorem resolveNode_nonlink (fs : FS) (fuel : Nat) (n : Node)
    (hn : ∀ u, n ≠ Node.link u) : resolveNode fs fuel n = some n := by
  cases n with
  | file sz => cases fuel <;> rfl
  | dir => cases fuel <;> rfl
  | link u => exact absurd rfl (hn u)

/-- `Path.exists` through a one-hop link whose recorded target stores a
non-link node. -/
theorem pexists_link_target_nonlink (fs : FS) (p t : FPath) (n : Node)
    (hp : lookupFS fs p = some (Node.link t)) (ht : lookupFS fs t = some n)
    (hn : ∀ u, n ≠ Node.link u) : pexists fs p = true := by
  unfold pexists linkFuel
  simp only [hp]
  have h1 : resolveNode fs (fs.length + 1) (Node.link t) = some n := by
    simp only [resolveNode, ht]
    exact resolveNode_nonlink fs fs.length n hn
  rw [h1]
  rfl

/-- `Path.exists` is false at a link whose recorded target is absent. -/
theorem pexists_link_target_none (fs : FS) (p t : FPath)
    (hp : lookupFS fs p = some (Node.link t)) (ht : lookupFS fs t = none) :
    pexists fs p = false := by
  unfold pexists linkFuel
  simp only [hp]
  have h1 : resolveNode fs (fs.length + 1) (Node.link t) = none := by
    simp only [resolveNode, ht]
  rw [h1]
  rfl

/-- `Path.exists` at a path storing a non-link node is just presence. -/
theorem pexists_nonlink (fs : FS) (p : FPath) (n : Node)
    (hp : lookupFS fs p = some n) (hn : ∀ u, n ≠ Node.link u) :
    pexists fs p = true := by
  unfold pexists
  simp only [hp]
  rw [resolveNode_nonlink fs (linkFuel fs) n hn]
  rfl

/-- `Path.exists` is false at an absent path. -/
theorem pexists_none (fs : FS) (p : FPath) (hp : lookupFS fs p = none) :
    pexists fs p = false := by
  unfold pexists
  simp only [hp]

end LLMover

namespace LLMover

/-! ## Claim theorem: destination-exists pre-check (C4). -/

/-- C4: when the computed destination already exists, `move_model_to_usb`
fails with the destination-exists error before any transfer begins: the
returned filesystem is the input one (with at most the publisher directory
created on the USB side), the manager is unchanged, and in particular every
path of the source entry's subtree is exactly as before — nothing of the
source was moved, deleted, or replaced by a link. -/
theorem C4_destination_exists (mgr : Manager) (fs fs1 : FS) (env : USBEnv)
    (usbFree : Nat) (strategy : SymStrategy) (sizeThreshold : Nat)
    (keepPatterns : List String) (pid : String) (monitorOk : Option Bool)
    (xfer : XferOut) (modelName : String) (m : MInfo) (usbDest : FPath)
    (hmnt : (verify_usb_mounted env (1024 * 1024 * 100)).is_mounted = true)
    (hwr : (verify_usb_mounted env (1024 * 1024 * 100)).is_writable = true)
    (hsp : (verify_usb_mounted env (1024 * 1024 * 100)).has_space = true)
    (hfind : mgr.models.find? (fun x => x.name = modelName) = some m)
    (hsym : m.is_symlink = false)
    (husb : usbDest = if m.publisher ≠ "" then
        mgr.usbPath ++ [m.publisher, m.modelName]
      else mgr.usbPath ++ [m.modelName])
    (hfs1 : fs1 = if m.publisher ≠ "" then
        mkdirP fs (mgr.usbPath ++ [m.publisher])
      else fs)
    (hpub : underPath m.path (mgr.usbPath ++ [m.publisher]) = false)
    (hdest : pexists fs1 usbDest = true) :
    move_model_to_usb mgr fs env usbFree strategy sizeThreshold keepPatterns
        pid monitorOk xfer modelName =
      (some MMErr.destinationExists, fs1, mgr) ∧
    ∀ q, underPath m.path q = true →
      lookupFS fs1 q = lookupFS fs q := by
  constructor
  · unfold move_model_to_usb
    simp only [hmnt, hwr, hsp, hfind, hsym, Bool.not_true, Bool.false_eq_true,
      if_false]
    rw [← husb, ← hfs1, hdest]
    rfl
  · intro q hq
    rw [hfs1]
    by_cases hp : m.publisher ≠ ""
    · rw [if_pos hp]
      refine lookupFS_mkdirP_ne fs (mgr.usbPath ++ [m.publisher]) q ?_
      intro hqe
      rw [hqe] at hq
      rw [hq] at hpub
      cases hpub
    · rw [if_neg hp]

/-- The healthy USB environment for witness states. -/
def wEnv : USBEnv :=
  { pathExists := true, system := "Linux", underVolumes := false
    isMountPoint := true, ancestorMount := false
    writeProbe := ProbeOut.ok true, spaceProbe := SpaceOut.ok 1000000000000 }

/-- The filesystem for the C4 witness: the tracked entry on the local root
and an already-occupied destination on the USB root. -/
def c4fs : FS :=
  [(["local", "pub", "model"], Node.dir),
   (["local", "pub", "model", "f.bin"], Node.file 5),
   (["usb", "pub"], Node.dir),
   (["usb", "pub", "model"], Node.dir)]

/-- Witness for C4 at a concrete state with an existing destination. -/
theorem C4_destination_exists_witness :
    move_model_to_usb wManager c4fs wEnv 1000000000000 SymStrategy.directory
        104857600 [] "1" (some true) XferOut.ok "pub/model" =
      (some MMErr.destinationExists, c4fs, wManager) ∧
    ∀ q, underPath wModel.path q = true →
      lookupFS c4fs q = lookupFS c4fs q := by
  have h := C4_destination_exists wManager c4fs c4fs wEnv 1000000000000
    SymStrategy.directory 104857600 [] "1" (some true) XferOut.ok
    "pub/model" wModel ["usb", "pub", "model"]
    (by decide) (by decide) (by decide) (by decide) (by decide)
    (by decide) (by decide) (by decide) (by decide)
  exact h

end LLMover

namespace LLMover

/-! ## Lemmas about `check_symlink_health` and the repair loop. -/

/-- Health of a symlink whose recorded target is absent: the early
`exists()` test fails and the default record is returned — not flagged
broken, but `target_exists` is false. -/
theorem health_link_target_none (fs : FS) (rf : FPath → Bool) (p t : FPath)
    (hp : lookupFS fs p = some (Node.link t)) (ht : lookupFS fs t = none) :
    (check_symlink_health fs rf p).is_broken = false ∧
    (check_symlink_health fs rf p).target_exists = false := by
  have hpe : pexists fs p = false := pexists_link_target_none fs p t hp ht
  unfold check_symlink_health
  rw [hpe]
  simp

/-- Health of a symlink with a live (non-link) target when reading or
resolving the link raises: flagged broken. -/
theorem health_link_readfail (fs : FS) (rf : FPath → Bool) (p t : FPath)
    (n : Node) (hp : lookupFS fs p = some (Node.link t))
    (ht : lookupFS fs t = some n) (hn : ∀ u, n ≠ Node.link u)
    (hrf : rf p = true) :
    (check_symlink_health fs rf p).is_broken = true := by
  have hpe : pexists fs p = true := pexists_link_target_nonlink fs p t n hp ht hn
  unfold check_symlink_health
  rw [hpe, hp]
  simp [hrf]

/-- Health of a symlink with a live (non-link) target and no read failure:
not broken, target exists. -/
theorem health_link_ok (fs : FS) (rf : FPath → Bool) (p t : FPath) (n : Node)
    (hp : lookupFS fs p = some (Node.link t)) (ht : lookupFS fs t = some n)
    (hn : ∀ u, n ≠ Node.link u) (hrf : rf p = false) :
    (check_symlink_health fs rf p).is_broken = false ∧
    (check_symlink_health fs rf p).target_exists = true := by
  have hpe : pexists fs p = true := pexists_link_target_nonlink fs p t n hp ht hn
  have hte : pexists fs t = true := pexists_nonlink fs t n ht hn
  unfold check_symlink_health
  rw [hpe, hp]
  simp [hrf, hte]

/-- One repair step either leaves the filesystem alone or unlinks exactly
the processed model's path. -/
theorem repairStep_fs_cases (rf : FPath → Bool)
    (res : List (String × String)) (fs : FS) (a : MInfo) :
    (repairStep rf (res, fs) a).2 = fs ∨
    (repairStep rf (res, fs) a).2 = removeEntry fs a.path := by
  unfold repairStep
  by_cases hms : a.is_symlink = true
  · simp only [hms, if_true]
    by_cases hb : (check_symlink_health fs rf a.path).is_broken = true
    · simp only [hb, if_true]
      cases lookupFS fs a.path with
      | none => exact Or.inl rfl
      | some n => cases n <;> simp
    · simp only [Bool.not_eq_true] at hb
      simp only [hb, Bool.false_eq_true, if_false]
      by_cases hte : (check_symlink_health fs rf a.path).target_exists = true
      · simp [hte]
      · simp only [Bool.not_eq_true] at hte
        simp only [hte, Bool.not_false, if_true]
        cases lookupFS fs a.path with
        | none => exact Or.inl rfl
        | some n => cases n <;> simp
  · simp only [Bool.not_eq_true] at hms
    simp [hms]

/-- Folding the repair loop over models none of which track path `q` leaves
the node at `q` unchanged. -/
theorem repair_fold_lookup_preserved (rf : FPath → Bool)
    (models : List MInfo) (res : List (String × String)) (fs : FS) (q : FPath)
    (hq : ∀ m' ∈ models, m'.path ≠ q) :
    lookupFS (models.foldl (repairStep rf) (res, fs)).2 q = lookupFS fs q := by
  induction models generalizing res fs with
  | nil => rfl
  | cons a rest ih =>
    rw [List.foldl_cons]
    rcases h2 : repairStep rf (res, fs) a with ⟨res1, fs1⟩
    rw [ih res1 fs1 (fun m' hm' => hq m' (List.mem_cons_of_mem a hm'))]
    have hc := repairStep_fs_cases rf res fs a
    rw [h2] at hc
    replace hc : fs1 = fs ∨ fs1 = removeEntry fs a.path := hc
    rcases hc with hc | hc
    · rw [hc]
    · rw [hc]
      exact lookupFS_removeEntry_ne fs a.path q
        (Ne.symm (hq a (List.mem_cons_self a rest)))

/-- The repair loop, observed at one tracked symlinked model `m` whose
stored node is a link to `t`: the link is removed exactly when `t` does not
exist or reading/resolving raises; a healthy link survives untouched. -/
theorem repair_fold_spec (rf : FPath → Bool) (models : List MInfo)
    (res : List (String × String)) (fs : FS) (m : MInfo) (t : FPath)
    (hpw : List.Pairwise (fun a b => a.path ≠ b.path) models)
    (hm : m ∈ models) (hms : m.is_symlink = true)
    (hlink : lookupFS fs m.path = some (Node.link t))
    (htn : ∀ m' ∈ models, t ≠ m'.path)
    (hnl : ∀ u, lookupFS fs t ≠ some (Node.link u)) :
    (lookupFS (models.foldl (repairStep rf) (res, fs)).2 m.path = none ↔
      (lookupFS fs t = none ∨ rf m.path = true)) ∧
    (lookupFS fs t ≠ none → rf m.path = false →
      lookupFS (models.foldl (repairStep rf) (res, fs)).2 m.path =
        some (Node.link t)) := by
  induction models generalizing res fs with
  | nil => cases hm
  | cons a rest ih =>
    rw [List.foldl_cons]
    have hpwa : ∀ b ∈ rest, a.path ≠ b.path := (List.pairwise_cons.mp hpw).1
    rcases List.mem_cons.mp hm with rfl | hmr
    · -- the tracked model at the head of the loop
      have hrest : ∀ m' ∈ rest, m'.path ≠ m.path :=
        fun m' hm' => Ne.symm (hpwa m' hm')
      cases hlt : lookupFS fs t with
      | none =>
        -- broken link: the early-exit health record still triggers the
        -- missing-target removal branch
        have hh := health_link_target_none fs rf m.path t hlink hlt
        have hstep : repairStep rf (res, fs) m =
            (res ++ [(m.name, "Removed symlink to missing target")],
              removeEntry fs m.path) := by
          unfold repairStep
          simp [hms, hh.1, hh.2, hlink]
        rw [hstep]
        rw [repair_fold_lookup_preserved rf rest _ _ m.path hrest]
        rw [lookupFS_removeEntry_self]
        exact ⟨by simp, fun hcon _ => absurd rfl hcon⟩
      | some n =>
        have hn : ∀ u, n ≠ Node.link u := fun u hu => hnl u (hu ▸ hlt)
        by_cases hrf : rf m.path = true
        · have hh := health_link_readfail fs rf m.path t n hlink hlt hn hrf
          have hstep : repairStep rf (res, fs) m =
              (res ++ [(m.name, "Removed broken symlink")],
                removeEntry fs m.path) := by
            unfold repairStep
            simp [hms, hh, hlink]
          rw [hstep]
          rw [repair_fold_lookup_preserved rf rest _ _ m.path hrest]
          rw [lookupFS_removeEntry_self]
          refine ⟨by simp [hrf], fun _ hcon => ?_⟩
          rw [hcon] at hrf
          exact Bool.noConfusion hrf
        · simp only [Bool.not_eq_true] at hrf
          have hh := health_link_ok fs rf m.path t n hlink hlt hn hrf
          have hstep : repairStep rf (res, fs) m = (res, fs) := by
            unfold repairStep
            simp [hms, hh.1, hh.2]
          rw [hstep]
          rw [repair_fold_lookup_preserved rf rest _ _ m.path hrest]
          rw [hlink]
          refine ⟨by simp [hrf], fun _ _ => rfl⟩
    · -- the tracked model sits further down the loop
      rcases h2 : repairStep rf (res, fs) a with ⟨res1, fs1⟩
      have hc := repairStep_fs_cases rf res fs a
      rw [h2] at hc
      replace hc : fs1 = fs ∨ fs1 = removeEntry fs a.path := hc
      have hma : m.path ≠ a.path := Ne.symm (hpwa m hmr)
      have hta : t ≠ a.path := htn a (List.mem_cons_self a rest)
      have hl1 : lookupFS fs1 m.path = some (Node.link t) := by
        rcases hc with hc | hc
        · rw [hc]; exact hlink
        · rw [hc, lookupFS_removeEntry_ne fs a.path m.path hma]; exact hlink
      have hlt1 : lookupFS fs1 t = lookupFS fs t := by
        rcases hc with hc | hc
        · rw [hc]
        · rw [hc]; exact lookupFS_removeEntry_ne fs a.path t hta
      have hnl1 : ∀ u, lookupFS fs1 t ≠ some (Node.link u) := by
        intro u
        rw [hlt1]
        exact hnl u
      have := ih res1 fs1 (List.pairwise_cons.mp hpw).2 hmr hl1
        (fun m' hm' => htn m' (List.mem_cons_of_mem a hm')) hnl1
      rw [hlt1] at this
      exact this

end LLMover

namespace LLMover

/-- C9: for a tracked entry whose path holds an indirection link, the repair
operation removes that link exactly when it is classified broken — its
recorded target does not exist, or reading/resolving the link raises — and
never removes a link classified healthy (target in place, no read failure),
which survives with its node intact.  Stated under non-interference
hypotheses: tracked paths are pairwise distinct, the recorded target is not
itself a further link, and no tracked path doubles as this link's target. -/
theorem C9_repair_removes_broken (mgr : Manager) (fs : FS)
    (rf : FPath → Bool) (m : MInfo) (t : FPath)
    (hpw : List.Pairwise (fun a b => a.path ≠ b.path) mgr.models)
    (hm : m ∈ mgr.models) (hms : m.is_symlink = true)
    (hlink : lookupFS fs m.path = some (Node.link t))
    (htn : ∀ m' ∈ mgr.models, t ≠ m'.path)
    (hnl : ∀ u, lookupFS fs t ≠ some (Node.link u)) :
    (lookupFS (repair_broken_symlinks mgr fs rf).2 m.path = none ↔
      (pexists fs t = false ∨ rf m.path = true)) ∧
    (pexists fs t = true → rf m.path = false →
      lookupFS (repair_broken_symlinks mgr fs rf).2 m.path =
        some (Node.link t)) := by
  have hiff : pexists fs t = false ↔ lookupFS fs t = none := by
    cases hlt : lookupFS fs t with
    | none => simp [pexists_none fs t hlt]
    | some n =>
      have hn : ∀ u, n ≠ Node.link u := fun u hu => hnl u (hu ▸ hlt)
      simp [pexists_nonlink fs t n hlt hn]
  have hspec := repair_fold_spec rf mgr.models [] fs m t hpw hm hms hlink
    htn hnl
  unfold repair_broken_symlinks
  constructor
  · rw [hspec.1]
    constructor
    · intro h
      rcases h with h | h
      · exact Or.inl (hiff.mpr h)
      · exact Or.inr h
    · intro h
      rcases h with h | h
      · exact Or.inl (hiff.mp h)
      · exact Or.inr h
  · intro hte hrf
    refine hspec.2 ?_ hrf
    intro hnone
    rw [hiff.mpr hnone] at hte
    exact Bool.noConfusion hte

/-- A tracked model whose link is broken, for the C9 witness. -/
def c9mA : MInfo :=
  { name := "a", path := ["la"], publisher := "", modelName := "a"
    size_bytes := 1, is_symlink := true, linked_to := some ["ta"]
    has_internal_symlinks := false, internal_symlink_target := none }

/-- A tracked model whose link is healthy, for the C9 witness. -/
def c9mB : MInfo :=
  { name := "b", path := ["lb"], publisher := "", modelName := "b"
    size_bytes := 3, is_symlink := true, linked_to := some ["tb"]
    has_internal_symlinks := false, internal_symlink_target := none }

/-- The two-model manager for the C9 witness. -/
def c9mgr : Manager :=
  { localPath := ["l"], usbPath := ["u"], models := [c9mA, c9mB] }

/-- The C9 witness filesystem: model a's link target is gone, model b's
target is a live file. -/
def c9fs : FS :=
  [(["la"], Node.link ["ta"]), (["lb"], Node.link ["tb"]),
   (["tb"], Node.file 3)]

/-- Witness for C9 at a concrete state: the broken link is removed and the
healthy link survives. -/
theorem C9_repair_removes_broken_witness :
    lookupFS (repair_broken_symlinks c9mgr c9fs (fun _ => false)).2 ["la"]
      = none ∧
    lookupFS (repair_broken_symlinks c9mgr c9fs (fun _ => false)).2 ["lb"]
      = some (Node.link ["tb"]) := by
  have hpw : List.Pairwise (fun a b : MInfo => a.path ≠ b.path)
      c9mgr.models := by
    refine List.Pairwise.cons (fun b hb => ?_) ?_
    · have : b = c9mB := by
        rcases List.mem_singleton.mp hb with rfl
        rfl
      rw [this]
      decide
    · exact List.pairwise_singleton _ _
  have hA := C9_repair_removes_broken c9mgr c9fs (fun _ => false) c9mA ["ta"]
    hpw (by decide) (by decide) (by decide)
    (by
      intro m' hm'
      rcases List.mem_cons.mp hm' with rfl | hm'
      · decide
      · rcases List.mem_singleton.mp hm' with rfl
        decide)
    (by
      intro u h
      have hz : lookupFS c9fs ["ta"] = none := by decide
      rw [hz] at h
      exact Option.noConfusion h)
  have hB := C9_repair_removes_broken c9mgr c9fs (fun _ => false) c9mB ["tb"]
    hpw (by decide) (by decide) (by decide)
    (by
      intro m' hm'
      rcases List.mem_cons.mp hm' with rfl | hm'
      · decide
      · rcases List.mem_singleton.mp hm' with rfl
        decide)
    (by
      intro u h
      have hz : lookupFS c9fs ["tb"] = some (Node.file 3) := by decide
      rw [hz] at h
      simp at h)
  constructor
  · exact hA.1.mpr (Or.inl (by decide))
  · exact hB.2 (by decide) rfl

end LLMover

namespace LLMover

/-! ## Path lemmas for the subtree-move roundtrip. -/

theorem underPath_refl (p : FPath) : underPath p p = true := by
  induction p with
  | nil => rfl
  | cons a as ih => simp [underPath, ih]

theorem underPath_append (p q : FPath) : underPath p (p ++ q) = true := by
  induction p with
  | nil => rfl
  | cons a as ih => simp [underPath, ih]

theorem underPath_length_le (p q : FPath) (h : underPath p q = true) :
    p.length ≤ q.length := by
  induction p generalizing q with
  | nil => simp
  | cons a as ih =>
    cases q with
    | nil => cases h
    | cons b bs =>
      simp only [underPath, Bool.and_eq_true] at h
      simpa using ih bs h.2

theorem append_drop_of_underPath (p q : FPath) (h : underPath p q = true) :
    p ++ q.drop p.length = q := by
  induction p generalizing q with
  | nil => simp
  | cons a as ih =>
    cases q with
    | nil => cases h
    | cons b bs =>
      simp only [underPath, Bool.and_eq_true, decide_eq_true_eq] at h
      simp [h.1, ih bs h.2]

theorem eq_of_underPath_length (p q : FPath) (h : underPath p q = true)
    (hl : q.length ≤ p.length) : q = p := by
  have h2 := append_drop_of_underPath p q h
  have h3 : q.drop p.length = [] := List.drop_eq_nil_of_le hl
  rw [h3, List.append_nil] at h2
  exact h2.symm

theorem drop_ne_nil_of_strict (p q : FPath) (h : underPath p q = true)
    (hne : q ≠ p) : q.drop p.length ≠ [] := by
  intro hdrop
  have h2 := append_drop_of_underPath p q h
  rw [hdrop, List.append_nil] at h2
  exact hne h2.symm

theorem rebase_roundtrip (p d q : FPath) (h : underPath p q = true) :
    rebasePath d p (rebasePath p d q) = q := by
  unfold rebasePath
  rw [List.drop_left]
  exact append_drop_of_underPath p q h

theorem underPath_rebase (p d q : FPath) :
    underPath d (rebasePath p d q) = true :=
  underPath_append d (q.drop p.length)

theorem rebase_eq_dst_iff (p d q : FPath) (h : underPath p q = true) :
    rebasePath p d q = d ↔ q = p := by
  constructor
  · intro hr
    unfold rebasePath at hr
    have hlen : (d ++ q.drop p.length).length = d.length := by rw [hr]
    rw [List.length_append, List.length_drop] at hlen
    exact eq_of_underPath_length p q h (by omega)
  · intro hq
    unfold rebasePath
    rw [hq, List.drop_length, List.append_nil]

theorem strictUnder_false_of_not_under (p q : FPath)
    (h : underPath p q = false) : strictUnder p q = false := by
  unfold strictUnder
  rw [h]
  rfl

theorem ne_of_not_under (d q : FPath) (h : underPath d q = false) : q ≠ d := by
  intro hq
  rw [hq, underPath_refl d] at h
  cases h

/-! ## Lookup lemmas over filters and maps. -/

theorem lookupFS_none_of_keys (l : FS) (q : FPath)
    (h : ∀ e ∈ l, e.1 ≠ q) : lookupFS l q = none := by
  induction l with
  | nil => rfl
  | cons a as ih =>
    rw [lookupFS_cons, if_neg (h a (List.mem_cons_self a as))]
    exact ih (fun e he => h e (List.mem_cons_of_mem a he))

theorem keys_ne_of_lookupFS_none (l : FS) (q : FPath)
    (h : lookupFS l q = none) : ∀ e ∈ l, e.1 ≠ q := by
  intro e he hkey
  induction l with
  | nil => cases he
  | cons a as ih =>
    rw [lookupFS_cons] at h
    by_cases ha : a.1 = q
    · rw [if_pos ha] at h; cases h
    · rw [if_neg ha] at h
      rcases List.mem_cons.mp he with rfl | he2
      · exact ha hkey
      · exact ih h he2

theorem lookupFS_singleton_self (p : FPath) (n : Node) :
    lookupFS [(p, n)] p = some n := by
  rw [show ([(p, n)] : FS) = (p, n) :: [] from rfl, lookupFS_cons, if_pos rfl]

theorem lookupFS_filter_key_all (l : FS) (f : FPath × Node → Bool)
    (q : FPath) (h : ∀ e ∈ l, e.1 = q → f e = true) :
    lookupFS (l.filter f) q = lookupFS l q := by
  induction l with
  | nil => rfl
  | cons a as ih =>
    rw [List.filter_cons]
    by_cases haq : a.1 = q
    · rw [if_pos (h a (List.mem_cons_self a as) haq), lookupFS_cons,
        lookupFS_cons, if_pos haq, if_pos haq]
    · by_cases hfa : f a = true
      · rw [if_pos hfa, lookupFS_cons, lookupFS_cons, if_neg haq, if_neg haq]
        exact ih (fun e he hk => h e (List.mem_cons_of_mem a he) hk)
      · rw [if_neg hfa, lookupFS_cons, if_neg haq]
        exact ih (fun e he hk => h e (List.mem_cons_of_mem a he) hk)

theorem lookupFS_filter_none (l : FS) (f : FPath × Node → Bool) (q : FPath)
    (h : lookupFS l q = none) : lookupFS (l.filter f) q = none :=
  lookupFS_none_of_keys (l.filter f) q
    (fun e he => keys_ne_of_lookupFS_none l q h e (List.mem_of_mem_filter he))

theorem removeEntry_eq_self_of_keys (l : FS) (p : FPath)
    (h : ∀ e ∈ l, e.1 ≠ p) : removeEntry l p = l := by
  unfold removeEntry
  exact List.filter_eq_self.mpr (fun e he => by simp [h e he])

theorem lookupFS_map_rebase (A : FS) (p d : FPath)
    (hA : ∀ e ∈ A, underPath p e.1 = true) :
    lookupFS (A.map (fun e => (rebasePath p d e.1, e.2))) d = lookupFS A p := by
  induction A with
  | nil => rfl
  | cons a as ih =>
    rw [List.map_cons, lookupFS_cons, lookupFS_cons]
    have hiff := rebase_eq_dst_iff p d a.1 (hA a (List.mem_cons_self a as))
    by_cases hap : a.1 = p
    · rw [if_pos (hiff.mpr hap), if_pos hap]
    · rw [if_neg (fun hh => hap (hiff.mp hh)), if_neg hap]
      exact ih (fun e he => hA e (List.mem_cons_of_mem a he))

theorem lookupFS_map_rebase_none (A : FS) (p d q : FPath)
    (hq : underPath d q = false) :
    lookupFS (A.map (fun e => (rebasePath p d e.1, e.2))) q = none := by
  refine lookupFS_none_of_keys _ q ?_
  intro e he
  rcases List.mem_map.mp he with ⟨a, _, rfl⟩
  intro hk
  have hk2 : rebasePath p d a.1 = q := hk
  have hu := underPath_rebase p d a.1
  rw [hk2, hq] at hu
  cases hu

/-! ## The `moveTree` decomposition and pure sums. -/

theorem moveTree_eq (fs : FS) (src dst : FPath) :
    moveTree fs src dst =
      fs.filter (fun e => !underPath src e.1) ++
        (fs.filter (fun e => underPath src e.1)).map
          (fun e => (rebasePath src dst e.1, e.2)) := by
  unfold moveTree
  congr 1
  induction fs with
  | nil => rfl
  | cons a as ih =>
    cases ha : underPath src a.1
    · simp [List.filterMap_cons, List.filter_cons, ha, ih]
    · simp [List.filterMap_cons, List.filter_cons, ha, ih]

/-- The size a walk attributes to a non-link node, independent of the
filesystem. -/
def nodeFileSize : Node → Nat
  | Node.file sz => sz
  | _ => 0

/-- Whether a non-link node is a regular file. -/
def nodeIsFile : Node → Bool
  | Node.file _ => true
  | _ => false

theorem statFileSize_nonlink (fs : FS) (n : Node)
    (hn : ∀ u, n ≠ Node.link u) : statFileSize fs n = nodeFileSize n := by
  unfold statFileSize
  rw [resolveNode_nonlink fs (linkFuel fs) n hn]
  cases n with
  | file sz => rfl
  | dir => rfl
  | link u => exact absurd rfl (hn u)

theorem statIsFile_nonlink (fs : FS) (n : Node)
    (hn : ∀ u, n ≠ Node.link u) : statIsFile fs n = nodeIsFile n := by
  unfold statIsFile
  rw [resolveNode_nonlink fs (linkFuel fs) n hn]
  cases n with
  | file sz => rfl
  | dir => rfl
  | link u => exact absurd rfl (hn u)

theorem sum_map_filter_split (l : List (FPath × Node))
    (f : FPath × Node → Bool) (w : FPath × Node → Nat) :
    ((l.filter f).map w).sum + ((l.filter (fun x => !f x)).map w).sum =
      (l.map w).sum := by
  induction l with
  | nil => rfl
  | cons a as ih =>
    cases hf : f a
    · simp only [List.filter_cons, hf]
      simp only [Bool.not_false, Bool.false_eq_true, Bool.true_eq_false,
        ite_true, ite_false, if_false, if_true, eq_self_iff_true,
        List.map_cons, List.sum_cons]
      omega
    · simp only [List.filter_cons, hf]
      simp only [Bool.not_true, Bool.false_eq_true, Bool.true_eq_false,
        ite_true, ite_false, if_false, if_true, eq_self_iff_true,
        List.map_cons, List.sum_cons]
      omega

end LLMover

namespace LLMover

/-! ## Transporting directory sums across the subtree move. -/

theorem strictUnder_rebase_iff (p d q : FPath) (h : underPath p q = true) :
    strictUnder d (rebasePath p d q) = strictUnder p q := by
  unfold strictUnder
  rw [underPath_rebase, h]
  simp only [Bool.true_and]
  by_cases hq : q = p
  · rw [(rebase_eq_dst_iff p d q h).mpr hq, hq]
    simp
  · have hne : rebasePath p d q ≠ d :=
      fun hh => hq ((rebase_eq_dst_iff p d q h).mp hh)
    simp [hq, hne]

/-- When every entry strictly below `anc` is link-free, the walked size is a
filesystem-independent sum. -/
theorem dirFilesSize_eq_pure (fs2 : FS) (anc : FPath)
    (h : ∀ e ∈ fs2, strictUnder anc e.1 = true → ∀ u, e.2 ≠ Node.link u) :
    dirFilesSize fs2 anc =
      (fs2.map (fun e =>
        if strictUnder anc e.1 then nodeFileSize e.2 else 0)).sum := by
  unfold dirFilesSize
  refine congrArg List.sum (List.map_congr_left ?_)
  intro e he
  by_cases hs : strictUnder anc e.1 = true
  · rw [if_pos hs, if_pos hs, statFileSize_nonlink fs2 e.2 (h e he hs)]
  · rw [if_neg hs, if_neg hs]

/-- The file-count analogue. -/
theorem dirFileCount_eq_pure (fs2 : FS) (anc : FPath)
    (h : ∀ e ∈ fs2, strictUnder anc e.1 = true → ∀ u, e.2 ≠ Node.link u) :
    dirFileCount fs2 anc =
      (fs2.map (fun e =>
        if strictUnder anc e.1 && nodeIsFile e.2 then 1 else 0)).sum := by
  unfold dirFileCount
  refine congrArg List.sum (List.map_congr_left ?_)
  intro e he
  by_cases hs : strictUnder anc e.1 = true
  · rw [hs, statIsFile_nonlink fs2 e.2 (h e he hs)]
  · have hs2 : strictUnder anc e.1 = false := by
      cases hv : strictUnder anc e.1
      · rfl
      · exact absurd hv hs
    rw [hs2]
    rfl

/-- A pure weighted sum vanishes on entries outside the subtree. -/
theorem pure_sum_zero_of_outside (l : FS) (anc : FPath) (g : Node → Nat)
    (h : ∀ e ∈ l, strictUnder anc e.1 = false) :
    (l.map (fun e => if strictUnder anc e.1 then g e.2 else 0)).sum = 0 := by
  refine List.sum_eq_zero ?_
  intro x hx
  rcases List.mem_map.mp hx with ⟨e, he, rfl⟩
  rw [h e he]
  rfl

/-- The count analogue. -/
theorem pure_count_zero_of_outside (l : FS) (anc : FPath)
    (h : ∀ e ∈ l, strictUnder anc e.1 = false) :
    (l.map (fun e =>
      if strictUnder anc e.1 && nodeIsFile e.2 then 1 else 0)).sum = 0 := by
  refine List.sum_eq_zero ?_
  intro x hx
  rcases List.mem_map.mp hx with ⟨e, he, rfl⟩
  rw [h e he]
  rfl

/-- Pure weighted sums over a whole filesystem restrict to the subtree
filter: the outside half contributes nothing. -/
theorem pure_sum_eq_filter (fs : FS) (p : FPath) (g : Node → Nat) :
    (fs.map (fun e => if strictUnder p e.1 then g e.2 else 0)).sum =
      ((fs.filter (fun e => underPath p e.1)).map
        (fun e => if strictUnder p e.1 then g e.2 else 0)).sum := by
  have hsplit := sum_map_filter_split fs (fun e => underPath p e.1)
    (fun e => if strictUnder p e.1 then g e.2 else 0)
  have hzero : ((fs.filter (fun e => !underPath p e.1)).map
      (fun e => if strictUnder p e.1 then g e.2 else 0)).sum = 0 := by
    refine pure_sum_zero_of_outside _ p g ?_
    intro e he
    have := (List.mem_filter.mp he).2
    refine strictUnder_false_of_not_under p e.1 ?_
    cases hv : underPath p e.1
    · rfl
    · rw [hv] at this; cases this
  omega

/-- The count analogue. -/
theorem pure_count_eq_filter (fs : FS) (p : FPath) :
    (fs.map (fun e =>
      if strictUnder p e.1 && nodeIsFile e.2 then 1 else 0)).sum =
      ((fs.filter (fun e => underPath p e.1)).map
        (fun e =>
          if strictUnder p e.1 && nodeIsFile e.2 then 1 else 0)).sum := by
  have hsplit := sum_map_filter_split fs (fun e => underPath p e.1)
    (fun e => if strictUnder p e.1 && nodeIsFile e.2 then 1 else 0)
  have hzero : ((fs.filter (fun e => !underPath p e.1)).map
      (fun e =>
        if strictUnder p e.1 && nodeIsFile e.2 then 1 else 0)).sum = 0 := by
    refine List.sum_eq_zero ?_
    intro x hx
    rcases List.mem_map.mp hx with ⟨e, he, rfl⟩
    have := (List.mem_filter.mp he).2
    have hs : strictUnder p e.1 = false := by
      refine strictUnder_false_of_not_under p e.1 ?_
      cases hv : underPath p e.1
      · rfl
      · rw [hv] at this; cases this
    rw [hs]
    rfl
  omega

/-- The rebased subtree carries the same pure weighted sum below `d` as the
original carried below `p`. -/
theorem pure_sum_rebase (A : FS) (p d : FPath) (g : Node → Nat)
    (hA : ∀ e ∈ A, underPath p e.1 = true) :
    ((A.map (fun e => (rebasePath p d e.1, e.2))).map
      (fun e => if strictUnder d e.1 then g e.2 else 0)).sum =
      (A.map (fun e => if strictUnder p e.1 then g e.2 else 0)).sum := by
  rw [List.map_map]
  refine congrArg List.sum (List.map_congr_left ?_)
  intro e he
  show (if strictUnder d (rebasePath p d e.1) then g e.2 else 0) =
    (if strictUnder p e.1 then g e.2 else 0)
  rw [strictUnder_rebase_iff p d e.1 (hA e he)]

/-- The count analogue. -/
theorem pure_count_rebase (A : FS) (p d : FPath)
    (hA : ∀ e ∈ A, underPath p e.1 = true) :
    ((A.map (fun e => (rebasePath p d e.1, e.2))).map
      (fun e => if strictUnder d e.1 && nodeIsFile e.2 then 1 else 0)).sum =
      (A.map (fun e =>
        if strictUnder p e.1 && nodeIsFile e.2 then 1 else 0)).sum := by
  rw [List.map_map]
  refine congrArg List.sum (List.map_congr_left ?_)
  intro e he
  show (if strictUnder d (rebasePath p d e.1) && nodeIsFile e.2 then 1 else 0) =
    (if strictUnder p e.1 && nodeIsFile e.2 then 1 else 0)
  rw [strictUnder_rebase_iff p d e.1 (hA e he)]

end LLMover

namespace LLMover

theorem underPath_of_strict (p q : FPath) (h : strictUnder p q = true) :
    underPath p q = true := by
  unfold strictUnder at h
  exact ((Bool.and_eq_true _ _).mp h).1

/-- After the subtree move, the walked size below the destination equals the
original walked size below the source. -/
theorem dirFilesSize_moved (fs : FS) (p d : FPath)
    (hdfresh : ∀ e ∈ fs, underPath d e.1 = false)
    (hnolink : ∀ e ∈ fs, underPath p e.1 = true → ∀ u, e.2 ≠ Node.link u) :
    dirFilesSize
      (fs.filter (fun e => !underPath p e.1) ++
        (fs.filter (fun e => underPath p e.1)).map
          (fun e => (rebasePath p d e.1, e.2))) d = dirFilesSize fs p := by
  have hA : ∀ e ∈ fs.filter (fun e => underPath p e.1),
      underPath p e.1 = true := fun e he => (List.mem_filter.mp he).2
  rw [dirFilesSize_eq_pure _ d ?hnl]
  case hnl =>
    intro e he hs u
    rcases List.mem_append.mp he with heR | heA
    · have h1 := (List.mem_filter.mp heR).1
      have h2 := strictUnder_false_of_not_under d e.1 (hdfresh e h1)
      rw [h2] at hs
      cases hs
    · rcases List.mem_map.mp heA with ⟨a, ha, rfl⟩
      exact hnolink a (List.mem_of_mem_filter ha) (hA a ha) u
  rw [List.map_append, List.sum_append]
  rw [pure_sum_zero_of_outside _ d nodeFileSize ?hout]
  case hout =>
    intro e he
    exact strictUnder_false_of_not_under d e.1
      (hdfresh e (List.mem_of_mem_filter he))
  rw [pure_sum_rebase _ p d nodeFileSize hA]
  rw [dirFilesSize_eq_pure fs p ?hnl2]
  case hnl2 =>
    intro e he hs u
    exact hnolink e he (underPath_of_strict p e.1 hs) u
  rw [pure_sum_eq_filter fs p nodeFileSize]
  omega

/-- The count analogue of `dirFilesSize_moved`. -/
theorem dirFileCount_moved (fs : FS) (p d : FPath)
    (hdfresh : ∀ e ∈ fs, underPath d e.1 = false)
    (hnolink : ∀ e ∈ fs, underPath p e.1 = true → ∀ u, e.2 ≠ Node.link u) :
    dirFileCount
      (fs.filter (fun e => !underPath p e.1) ++
        (fs.filter (fun e => underPath p e.1)).map
          (fun e => (rebasePath p d e.1, e.2))) d = dirFileCount fs p := by
  have hA : ∀ e ∈ fs.filter (fun e => underPath p e.1),
      underPath p e.1 = true := fun e he => (List.mem_filter.mp he).2
  rw [dirFileCount_eq_pure _ d ?hnl]
  case hnl =>
    intro e he hs u
    rcases List.mem_append.mp he with heR | heA
    · have h1 := (List.mem_filter.mp heR).1
      have h2 := strictUnder_false_of_not_under d e.1 (hdfresh e h1)
      rw [h2] at hs
      cases hs
    · rcases List.mem_map.mp heA with ⟨a, ha, rfl⟩
      exact hnolink a (List.mem_of_mem_filter ha) (hA a ha) u
  rw [List.map_append, List.sum_append]
  rw [pure_count_zero_of_outside _ d ?hout]
  case hout =>
    intro e he
    exact strictUnder_false_of_not_under d e.1
      (hdfresh e (List.mem_of_mem_filter he))
  rw [pure_count_rebase _ p d hA]
  rw [dirFileCount_eq_pure fs p ?hnl2]
  case hnl2 =>
    intro e he hs u
    exact hnolink e he (underPath_of_strict p e.1 hs) u
  rw [pure_count_eq_filter fs p]
  omega

/-- After moving the subtree back, with the leftover backup link as a
sibling, the walked size below the original path equals the original walked
size. -/
theorem dirFilesSize_restored (fs : FS) (p d bak : FPath)
    (hnolink : ∀ e ∈ fs, underPath p e.1 = true → ∀ u, e.2 ≠ Node.link u)
    (hbk : underPath p bak = false) :
    dirFilesSize
      ((fs.filter (fun e => !underPath p e.1) ++ [(bak, Node.link d)]) ++
        fs.filter (fun e => underPath p e.1)) p = dirFilesSize fs p := by
  rw [dirFilesSize_eq_pure _ p ?hnl]
  case hnl =>
    intro e he hs u
    rcases List.mem_append.mp he with heL | heA
    · rcases List.mem_append.mp heL with heR | heB
      · have h1 := (List.mem_filter.mp heR).2
        have h2 : underPath p e.1 = false := by
          cases hv : underPath p e.1
          · rfl
          · rw [hv] at h1; cases h1
        rw [strictUnder_false_of_not_under p e.1 h2] at hs
        cases hs
      · rcases List.mem_singleton.mp heB with rfl
        rw [show ((bak, Node.link d) : FPath × Node).1 = bak from rfl,
          strictUnder_false_of_not_under p bak hbk] at hs
        cases hs
    · exact hnolink e (List.mem_of_mem_filter heA)
        ((List.mem_filter.mp heA).2) u
  rw [List.map_append, List.sum_append, List.map_append, List.sum_append]
  rw [pure_sum_zero_of_outside _ p nodeFileSize ?hout]
  case hout =>
    intro e he
    have h1 := (List.mem_filter.mp he).2
    refine strictUnder_false_of_not_under p e.1 ?_
    cases hv : underPath p e.1
    · rfl
    · rw [hv] at h1; cases h1
  have hbk0 : (([(bak, Node.link d)] : FS).map
      (fun e => if strictUnder p e.1 then nodeFileSize e.2 else 0)).sum = 0 := by
    refine pure_sum_zero_of_outside _ p nodeFileSize ?_
    intro e he
    rcases List.mem_singleton.mp he with rfl
    exact strictUnder_false_of_not_under p bak hbk
  rw [hbk0]
  rw [dirFilesSize_eq_pure fs p ?hnl2]
  case hnl2 =>
    intro e he hs u
    exact hnolink e he (underPath_of_strict p e.1 hs) u
  rw [pure_sum_eq_filter fs p nodeFileSize]
  omega

/-- The count analogue of `dirFilesSize_restored`. -/
theorem dirFileCount_restored (fs : FS) (p d bak : FPath)
    (hnolink : ∀ e ∈ fs, underPath p e.1 = true → ∀ u, e.2 ≠ Node.link u)
    (hbk : underPath p bak = false) :
    dirFileCount
      ((fs.filter (fun e => !underPath p e.1) ++ [(bak, Node.link d)]) ++
        fs.filter (fun e => underPath p e.1)) p = dirFileCount fs p := by
  rw [dirFileCount_eq_pure _ p ?hnl]
  case hnl =>
    intro e he hs u
    rcases List.mem_append.mp he with heL | heA
    · rcases List.mem_append.mp heL with heR | heB
      · have h1 := (List.mem_filter.mp heR).2
        have h2 : underPath p e.1 = false := by
          cases hv : underPath p e.1
          · rfl
          · rw [hv] at h1; cases h1
        rw [strictUnder_false_of_not_under p e.1 h2] at hs
        cases hs
      · rcases List.mem_singleton.mp heB with rfl
        rw [show ((bak, Node.link d) : FPath × Node).1 = bak from rfl,
          strictUnder_false_of_not_under p bak hbk] at hs
        cases hs
    · exact hnolink e (List.mem_of_mem_filter heA)
        ((List.mem_filter.mp heA).2) u
  rw [List.map_append, List.sum_append, List.map_append, List.sum_append]
  rw [pure_count_zero_of_outside _ p ?hout]
  case hout =>
    intro e he
    have h1 := (List.mem_filter.mp he).2
    refine strictUnder_false_of_not_under p e.1 ?_
    cases hv : underPath p e.1
    · rfl
    · rw [hv] at h1; cases h1
  have hbk0 : (([(bak, Node.link d)] : FS).map
      (fun e =>
        if strictUnder p e.1 && nodeIsFile e.2 then 1 else 0)).sum = 0 := by
    refine pure_count_zero_of_outside _ p ?_
    intro e he
    rcases List.mem_singleton.mp he with rfl
    exact strictUnder_false_of_not_under p bak hbk
  rw [hbk0]
  rw [dirFileCount_eq_pure fs p ?hnl2]
  case hnl2 =>
    intro e he hs u
    exact hnolink e he (underPath_of_strict p e.1 hs) u
  rw [pure_count_eq_filter fs p]
  omega

end LLMover

namespace LLMover

/-! ## The directory-strategy relocation, success path. -/

/-- With a fresh destination and a passing verification, the verified move
is exactly the subtree move. -/
theorem safe_move_success (fs : FS) (p d : FPath) (pid : String)
    (hlookd : lookupFS fs d = none)
    (hver : smvVerifyOk (fs.filter (fun e => !underPath p e.1) ++
      (fs.filter (fun e => underPath p e.1)).map
        (fun e => (rebasePath p d e.1, e.2))) d = true) :
    safe_move_with_verification fs p d pid (some true) XferOut.ok =
      (none, fs.filter (fun e => !underPath p e.1) ++
        (fs.filter (fun e => underPath p e.1)).map
          (fun e => (rebasePath p d e.1, e.2))) := by
  unfold safe_move_with_verification
  have hpexd : pexists fs d = false := pexists_none fs d hlookd
  have hmv : shutilMove fs p d = moveTree fs p d := by
    unfold shutilMove
    rw [hlookd]
  simp only [hpexd, Bool.false_eq_true, if_false, ite_false, Bool.false_and,
    hmv, moveTree_eq, hver, if_true, ite_true]

end LLMover

namespace LLMover

/-- The whole-directory relocation on its success path: the subtree moves to
the destination, a link replaces the original path, the fresh link passes
the health check, and the tracked record is updated. -/
theorem move_dir_symlink_success (fs : FS) (m : MInfo) (d : FPath)
    (pid : String)
    (hroot : lookupFS fs m.path = some Node.dir)
    (hdfresh : ∀ e ∈ fs, underPath d e.1 = false)
    (hdp : underPath d m.path = false)
    (hnolink : ∀ e ∈ fs, underPath m.path e.1 = true → ∀ u, e.2 ≠ Node.link u)
    (hcnt : dirFileCount fs m.path ≠ 0)
    (hsz : dirFilesSize fs m.path ≠ 0) :
    move_with_directory_symlink fs m d pid (some true) XferOut.ok =
      (none,
        (fs.filter (fun e => !underPath m.path e.1) ++
          (fs.filter (fun e => underPath m.path e.1)).map
            (fun e => (rebasePath m.path d e.1, e.2))) ++
          [(m.path, Node.link d)],
        { m with is_symlink := true, linked_to := some d }) := by
  have hlookd : lookupFS fs d = none := by
    refine lookupFS_none_of_keys fs d ?_
    intro e he hk
    have h1 := hdfresh e he
    rw [hk, underPath_refl] at h1
    cases h1
  have hAunder : ∀ e ∈ fs.filter (fun e => underPath m.path e.1),
      underPath m.path e.1 = true := fun e he => (List.mem_filter.mp he).2
  have hlookA : lookupFS (fs.filter (fun e => underPath m.path e.1)) m.path =
      some Node.dir := by
    rw [lookupFS_filter_key_all fs _ m.path
      (fun e _ hk => by rw [hk]; exact underPath_refl m.path)]
    exact hroot
  have hlookR_p : lookupFS (fs.filter (fun e => !underPath m.path e.1))
      m.path = none := by
    refine lookupFS_none_of_keys _ m.path ?_
    intro e he hk
    have h2 := (List.mem_filter.mp he).2
    rw [hk, underPath_refl] at h2
    exact absurd h2 (by decide)
  have hlookR_d : lookupFS (fs.filter (fun e => !underPath m.path e.1)) d =
      none := lookupFS_filter_none fs _ d hlookd
  have hlookAmap_d : lookupFS
      ((fs.filter (fun e => underPath m.path e.1)).map
        (fun e => (rebasePath m.path d e.1, e.2))) d = some Node.dir := by
    rw [lookupFS_map_rebase _ m.path d hAunder]
    exact hlookA
  have hlookAmap_p : lookupFS
      ((fs.filter (fun e => underPath m.path e.1)).map
        (fun e => (rebasePath m.path d e.1, e.2))) m.path = none :=
    lookupFS_map_rebase_none _ m.path d m.path hdp
  have hmid_d : lookupFS
      (fs.filter (fun e => !underPath m.path e.1) ++
        (fs.filter (fun e => underPath m.path e.1)).map
          (fun e => (rebasePath m.path d e.1, e.2))) d = some Node.dir := by
    rw [lookupFS_append, hlookR_d, hlookAmap_d]
    rfl
  have hmid_p : lookupFS
      (fs.filter (fun e => !underPath m.path e.1) ++
        (fs.filter (fun e => underPath m.path e.1)).map
          (fun e => (rebasePath m.path d e.1, e.2))) m.path = none := by
    rw [lookupFS_append, hlookR_p, hlookAmap_p]
    rfl
  have hnd : ∀ u, Node.dir ≠ Node.link u := fun u h => Node.noConfusion h
  have hver : smvVerifyOk
      (fs.filter (fun e => !underPath m.path e.1) ++
        (fs.filter (fun e => underPath m.path e.1)).map
          (fun e => (rebasePath m.path d e.1, e.2))) d = true := by
    unfold smvVerifyOk
    simp only [hmid_d]
    rw [resolveNode_nonlink _ _ Node.dir hnd]
    rw [dirFileCount_moved fs m.path d hdfresh hnolink,
      dirFilesSize_moved fs m.path d hdfresh hnolink]
    simp [hcnt, hsz]
  unfold move_with_directory_symlink
  rw [safe_move_success fs m.path d pid hlookd hver]
  have hlink3 : lookupFS
      ((fs.filter (fun e => !underPath m.path e.1) ++
        (fs.filter (fun e => underPath m.path e.1)).map
          (fun e => (rebasePath m.path d e.1, e.2))) ++
        [(m.path, Node.link d)]) m.path = some (Node.link d) := by
    rw [lookupFS_append, hmid_p, lookupFS_singleton_self]
    rfl
  have hdn : d ≠ m.path := by
    intro hdm
    rw [← hdm, underPath_refl] at hdp
    cases hdp
  have hd3 : lookupFS
      ((fs.filter (fun e => !underPath m.path e.1) ++
        (fs.filter (fun e => underPath m.path e.1)).map
          (fun e => (rebasePath m.path d e.1, e.2))) ++
        [(m.path, Node.link d)]) d = some Node.dir := by
    rw [lookupFS_append_single_ne _ _ _ d hdn]
    exact hmid_d
  have hh := health_link_ok _ (fun _ => false) m.path d Node.dir hlink3 hd3
    hnd rfl
  simp only [hh.1, Bool.false_eq_true, if_false, ite_false]

end LLMover

namespace LLMover

/-! ## The restore, success path. -/

theorem removeEntry_append (l1 l2 : FS) (p : FPath) :
    removeEntry (l1 ++ l2) p = removeEntry l1 p ++ removeEntry l2 p := by
  unfold removeEntry
  exact List.filter_append ..

theorem removeEntry_singleton_self (p : FPath) (n : Node) :
    removeEntry [(p, n)] p = [] := by
  simp [removeEntry]

/-- `safe_restore_from_usb` on the state the directory-strategy relocation
left behind: the link is backed up and removed, the subtree moves back, the
verification passes, and — because the backup is a copy of the link whose
target has just moved away — the final `backup_symlink.exists()` test fails
and the backup object survives as a sibling. -/
theorem safe_restore_success (fs : FS) (p d : FPath) (pid : String)
    (hroot : lookupFS fs p = some Node.dir)
    (hdfresh : ∀ e ∈ fs, underPath d e.1 = false)
    (hdp : underPath d p = false)
    (hpd : underPath p d = false)
    (hnolink : ∀ e ∈ fs, underPath p e.1 = true → ∀ u, e.2 ≠ Node.link u)
    (hcnt : dirFileCount fs p ≠ 0)
    (hsz : dirFilesSize fs p ≠ 0)
    (hbk1 : lookupFS fs (backupSib p (".backup_" ++ pid)) = none)
    (hbk2 : underPath d (backupSib p (".backup_" ++ pid)) = false)
    (hbk3 : underPath p (backupSib p (".backup_" ++ pid)) = false) :
    safe_restore_from_usb
      ((fs.filter (fun e => !underPath p e.1) ++
        (fs.filter (fun e => underPath p e.1)).map
          (fun e => (rebasePath p d e.1, e.2))) ++
        [(p, Node.link d)]) p d p pid =
      (none,
        (fs.filter (fun e => !underPath p e.1) ++
          [(backupSib p (".backup_" ++ pid), Node.link d)]) ++
          fs.filter (fun e => underPath p e.1)) := by
  have hnd : ∀ u, Node.dir ≠ Node.link u := fun u h => Node.noConfusion h
  have hlookd : lookupFS fs d = none := by
    refine lookupFS_none_of_keys fs d ?_
    intro e he hk
    have h1 := hdfresh e he
    rw [hk, underPath_refl] at h1
    cases h1
  have hAunder : ∀ e ∈ fs.filter (fun e => underPath p e.1),
      underPath p e.1 = true := fun e he => (List.mem_filter.mp he).2
  have hlookA : lookupFS (fs.filter (fun e => underPath p e.1)) p =
      some Node.dir := by
    rw [lookupFS_filter_key_all fs _ p
      (fun e _ hk => by rw [hk]; exact underPath_refl p)]
    exact hroot
  have hlookR_p : lookupFS (fs.filter (fun e => !underPath p e.1)) p =
      none := by
    refine lookupFS_none_of_keys _ p ?_
    intro e he hk
    have h2 := (List.mem_filter.mp he).2
    rw [hk, underPath_refl] at h2
    exact absurd h2 (by decide)
  have hlookR_d : lookupFS (fs.filter (fun e => !underPath p e.1)) d = none :=
    lookupFS_filter_none fs _ d hlookd
  have hlookA_d : lookupFS (fs.filter (fun e => underPath p e.1)) d = none :=
    lookupFS_filter_none fs _ d hlookd
  have hlookR_bak : lookupFS (fs.filter (fun e => !underPath p e.1))
      (backupSib p (".backup_" ++ pid)) = none :=
    lookupFS_filter_none fs _ _ hbk1
  have hlookAmap_d : lookupFS
      ((fs.filter (fun e => underPath p e.1)).map
        (fun e => (rebasePath p d e.1, e.2))) d = some Node.dir := by
    rw [lookupFS_map_rebase _ p d hAunder]
    exact hlookA
  have hlookAmap_p : lookupFS
      ((fs.filter (fun e => underPath p e.1)).map
        (fun e => (rebasePath p d e.1, e.2))) p = none :=
    lookupFS_map_rebase_none _ p d p hdp
  have hlookAmap_bak : lookupFS
      ((fs.filter (fun e => underPath p e.1)).map
        (fun e => (rebasePath p d e.1, e.2)))
      (backupSib p (".backup_" ++ pid)) = none :=
    lookupFS_map_rebase_none _ p d _ hbk2
  have hbakne : backupSib p (".backup_" ++ pid) ≠ p :=
    ne_of_not_under p _ hbk3
  have hdnp : d ≠ p := by
    intro hdm
    rw [← hdm, underPath_refl] at hdp
    cases hdp
  have hbaknd : backupSib p (".backup_" ++ pid) ≠ d :=
    ne_of_not_under d _ hbk2
  -- the state handed over by the relocation
  have hlink3 : lookupFS
      ((fs.filter (fun e => !underPath p e.1) ++
        (fs.filter (fun e => underPath p e.1)).map
          (fun e => (rebasePath p d e.1, e.2))) ++
        [(p, Node.link d)]) p = some (Node.link d) := by
    rw [lookupFS_append, lookupFS_append, hlookR_p, hlookAmap_p,
      lookupFS_singleton_self]
    rfl
  have hd3 : lookupFS
      ((fs.filter (fun e => !underPath p e.1) ++
        (fs.filter (fun e => underPath p e.1)).map
          (fun e => (rebasePath p d e.1, e.2))) ++
        [(p, Node.link d)]) d = some Node.dir := by
    rw [lookupFS_append_single_ne _ _ _ d hdnp, lookupFS_append, hlookR_d,
      hlookAmap_d]
    rfl
  have hbak3 : lookupFS
      ((fs.filter (fun e => !underPath p e.1) ++
        (fs.filter (fun e => underPath p e.1)).map
          (fun e => (rebasePath p d e.1, e.2))) ++
        [(p, Node.link d)]) (backupSib p (".backup_" ++ pid)) = none := by
    rw [lookupFS_append_single_ne _ _ _ _ hbakne, lookupFS_append,
      hlookR_bak, hlookAmap_bak]
    rfl
  have hpe_p : pexists
      ((fs.filter (fun e => !underPath p e.1) ++
        (fs.filter (fun e => underPath p e.1)).map
          (fun e => (rebasePath p d e.1, e.2))) ++
        [(p, Node.link d)]) p = true :=
    pexists_link_target_nonlink _ p d Node.dir hlink3 hd3 hnd
  have hpe_bak : pexists
      ((fs.filter (fun e => !underPath p e.1) ++
        (fs.filter (fun e => underPath p e.1)).map
          (fun e => (rebasePath p d e.1, e.2))) ++
        [(p, Node.link d)]) (backupSib p (".backup_" ++ pid)) = false :=
    pexists_none _ _ hbak3
  -- the backed-up state, with the link removed
  have hre : removeEntry
      (((fs.filter (fun e => !underPath p e.1) ++
        (fs.filter (fun e => underPath p e.1)).map
          (fun e => (rebasePath p d e.1, e.2))) ++
        [(p, Node.link d)]) ++
        [(backupSib p (".backup_" ++ pid), Node.link d)]) p =
      (fs.filter (fun e => !underPath p e.1) ++
        (fs.filter (fun e => underPath p e.1)).map
          (fun e => (rebasePath p d e.1, e.2))) ++
        [(backupSib p (".backup_" ++ pid), Node.link d)] := by
    rw [removeEntry_append, removeEntry_append, removeEntry_append,
      removeEntry_singleton_self,
      removeEntry_eq_self_of_keys _ p (keys_ne_of_lookupFS_none _ p hlookR_p),
      removeEntry_eq_self_of_keys _ p
        (keys_ne_of_lookupFS_none _ p hlookAmap_p),
      removeEntry_eq_self_of_keys _ p
        (fun e he => by
          rcases List.mem_singleton.mp he with rfl
          exact hbakne),
      List.append_nil]
  -- the subtree moved back
  have hmvback : shutilMove
      ((fs.filter (fun e => !underPath p e.1) ++
        (fs.filter (fun e => underPath p e.1)).map
          (fun e => (rebasePath p d e.1, e.2))) ++
        [(backupSib p (".backup_" ++ pid), Node.link d)]) d p =
      (fs.filter (fun e => !underPath p e.1) ++
        [(backupSib p (".backup_" ++ pid), Node.link d)]) ++
        fs.filter (fun e => underPath p e.1) := by
    have hlookmid : lookupFS
        ((fs.filter (fun e => !underPath p e.1) ++
          (fs.filter (fun e => underPath p e.1)).map
            (fun e => (rebasePath p d e.1, e.2))) ++
          [(backupSib p (".backup_" ++ pid), Node.link d)]) p = none := by
      rw [lookupFS_append_single_ne _ _ _ p (Ne.symm hbakne), lookupFS_append,
        hlookR_p, hlookAmap_p]
      rfl
    unfold shutilMove
    simp only [hlookmid]
    rw [moveTree_eq, List.filter_append, List.filter_append,
      List.filter_append, List.filter_append]
    have hfR1 : (fs.filter (fun e => !underPath p e.1)).filter
        (fun e => !underPath d e.1) = fs.filter (fun e => !underPath p e.1) :=
      List.filter_eq_self.mpr (fun e he => by
        rw [hdfresh e (List.mem_of_mem_filter he)]
        rfl)
    have hfR2 : (fs.filter (fun e => !underPath p e.1)).filter
        (fun e => underPath d e.1) = [] :=
      List.filter_eq_nil_iff.mpr (fun e he hu => by
        rw [hdfresh e (List.mem_of_mem_filter he)] at hu
        cases hu)
    have hfA1 : ((fs.filter (fun e => underPath p e.1)).map
        (fun e => (rebasePath p d e.1, e.2))).filter
        (fun e => !underPath d e.1) = [] :=
      List.filter_eq_nil_iff.mpr (fun e he hu => by
        rcases List.mem_map.mp he with ⟨a, _, rfl⟩
        have h2 : underPath d (rebasePath p d a.1) = true :=
          underPath_rebase p d a.1
        rw [show ((rebasePath p d a.1, a.2) : FPath × Node).1 =
          rebasePath p d a.1 from rfl, h2] at hu
        cases hu)
    have hfA2 : ((fs.filter (fun e => underPath p e.1)).map
        (fun e => (rebasePath p d e.1, e.2))).filter
        (fun e => underPath d e.1) =
        (fs.filter (fun e => underPath p e.1)).map
          (fun e => (rebasePath p d e.1, e.2)) :=
      List.filter_eq_self.mpr (fun e he => by
        rcases List.mem_map.mp he with ⟨a, _, rfl⟩
        exact underPath_rebase p d a.1)
    have hfB1 : ([(backupSib p (".backup_" ++ pid), Node.link d)] : FS).filter
        (fun e => !underPath d e.1) =
        [(backupSib p (".backup_" ++ pid), Node.link d)] :=
      List.filter_eq_self.mpr (fun e he => by
        rcases List.mem_singleton.mp he with rfl
        rw [show ((backupSib p (".backup_" ++ pid), Node.link d) :
          FPath × Node).1 = backupSib p (".backup_" ++ pid) from rfl, hbk2]
        rfl)
    have hfB2 : ([(backupSib p (".backup_" ++ pid), Node.link d)] : FS).filter
        (fun e => underPath d e.1) = [] :=
      List.filter_eq_nil_iff.mpr (fun e he hu => by
        rcases List.mem_singleton.mp he with rfl
        rw [show ((backupSib p (".backup_" ++ pid), Node.link d) :
          FPath × Node).1 = backupSib p (".backup_" ++ pid) from rfl,
          hbk2] at hu
        cases hu)
    rw [hfR1, hfR2, hfA1, hfA2, hfB1, hfB2, List.append_nil, List.nil_append,
      List.append_nil, List.map_map]
    congr 1
    have : ∀ e ∈ fs.filter (fun e => underPath p e.1),
        ((fun e => (rebasePath d p e.1, e.2)) ∘
          (fun e => (rebasePath p d e.1, e.2))) e = id e := by
      intro e he
      show (rebasePath d p (rebasePath p d e.1), e.2) = e
      rw [rebase_roundtrip p d e.1 (hAunder e he)]
    rw [List.map_congr_left this, List.map_id]
  -- the verification of the restored directory
  have hlookfin_p : lookupFS
      ((fs.filter (fun e => !underPath p e.1) ++
        [(backupSib p (".backup_" ++ pid), Node.link d)]) ++
        fs.filter (fun e => underPath p e.1)) p = some Node.dir := by
    rw [lookupFS_append, lookupFS_append, hlookR_p]
    have hb : lookupFS
        ([(backupSib p (".backup_" ++ pid), Node.link d)] : FS) p = none :=
      lookupFS_none_of_keys _ p (fun e he => by
        rcases List.mem_singleton.mp he with rfl
        exact hbakne)
    rw [hb, hlookA]
    rfl
  have hver2 : smvVerifyOk
      ((fs.filter (fun e => !underPath p e.1) ++
        [(backupSib p (".backup_" ++ pid), Node.link d)]) ++
        fs.filter (fun e => underPath p e.1)) p = true := by
    unfold smvVerifyOk
    simp only [hlookfin_p]
    rw [resolveNode_nonlink _ _ Node.dir hnd]
    rw [dirFileCount_restored fs p d _ hnolink hbk3,
      dirFilesSize_restored fs p d _ hnolink hbk3]
    simp [hcnt, hsz]
  -- the final backup-cleanup check: the backup link's target is gone
  have hlookfin_d : lookupFS
      ((fs.filter (fun e => !underPath p e.1) ++
        [(backupSib p (".backup_" ++ pid), Node.link d)]) ++
        fs.filter (fun e => underPath p e.1)) d = none := by
    rw [lookupFS_append, lookupFS_append, hlookR_d]
    have hb : lookupFS
        ([(backupSib p (".backup_" ++ pid), Node.link d)] : FS) d = none :=
      lookupFS_none_of_keys _ d (fun e he => by
        rcases List.mem_singleton.mp he with rfl
        exact hbaknd)
    rw [hb, hlookA_d]
    rfl
  have hlookfin_bak : lookupFS
      ((fs.filter (fun e => !underPath p e.1) ++
        [(backupSib p (".backup_" ++ pid), Node.link d)]) ++
        fs.filter (fun e => underPath p e.1))
      (backupSib p (".backup_" ++ pid)) = some (Node.link d) := by
    rw [lookupFS_append, lookupFS_append, hlookR_bak, lookupFS_singleton_self]
    rfl
  have hpe_finbak : pexists
      ((fs.filter (fun e => !underPath p e.1) ++
        [(backupSib p (".backup_" ++ pid), Node.link d)]) ++
        fs.filter (fun e => underPath p e.1))
      (backupSib p (".backup_" ++ pid)) = false :=
    pexists_link_target_none _ _ d hlookfin_bak hlookfin_d
  -- assemble
  unfold safe_restore_from_usb
  simp only [hpe_p, hlink3, isLinkNode, Bool.not_true, Bool.false_eq_true,
    if_false, ite_false, Bool.false_and, Bool.and_false,
    pexists_nonlink _ d Node.dir hd3 hnd, hpe_bak, hre, hmvback, hver2,
    if_true, ite_true, hpe_finbak]

end LLMover

namespace LLMover

/-- After the in-place record update, looking the model up by name finds the
updated record. -/
theorem find?_map_update (models : List MInfo) (nm : String) (m m2 : MInfo)
    (hfind : models.find? (fun x => x.name = nm) = some m)
    (hname : m2.name = m.name) :
    (models.map (fun x => if x.name = m2.name then m2 else x)).find?
      (fun x => x.name = nm) = some m2 := by
  have hmnm : m.name = nm := by
    have := List.find?_some hfind
    simpa using this
  induction models with
  | nil => cases hfind
  | cons a as ih =>
    rw [List.find?_cons] at hfind
    rw [List.map_cons, List.find?_cons]
    by_cases ha : a.name = nm
    · rw [show (decide (a.name = nm)) = true from by simp [ha]] at hfind
      have ham : a = m := by
        injection hfind
      rw [if_pos (by rw [ham, hname])]
      rw [show (decide (m2.name = nm)) = true from by
        simp [hname, hmnm]]
    · rw [show (decide (a.name = nm)) = false from by simp [ha]] at hfind
      rw [if_neg (fun hh : a.name = m2.name => ha (by rw [hh, hname, hmnm]))]
      rw [show (decide (a.name = nm)) = false from by simp [ha]]
      exact ih hfind

end LLMover

namespace LLMover

/-- C6: an entry successfully relocated to the removable root with the
whole-directory strategy and then successfully restored reports the same
size after the restore as before the relocation.  The hypotheses are the
success conditions of the two operations: healthy USB environment on both
pre-flight checks, the tracked directory entry found and not yet linked, a
fresh destination disjoint from the source subtree, a link-free source
subtree with at least one byte in at least one file, enough space on both
sides, and a fresh backup sibling.  Both calls are proved to succeed, and
the reported size — `_calculate_size` at the entry's path — is unchanged. -/
theorem C6_roundtrip_size (mgr : Manager) (fs : FS) (env env2 : USBEnv)
    (usbFree localFree thr : Nat) (pats : List String) (pid : String)
    (modelName : String) (m : MInfo) (d : FPath)
    (henv1m : (verify_usb_mounted env (1024 * 1024 * 100)).is_mounted = true)
    (henv1w : (verify_usb_mounted env (1024 * 1024 * 100)).is_writable = true)
    (henv1s : (verify_usb_mounted env (1024 * 1024 * 100)).has_space = true)
    (henv2m : (verify_usb_mounted env2 (1024 * 1024 * 100)).is_mounted = true)
    (henv2w : (verify_usb_mounted env2 (1024 * 1024 * 100)).is_writable = true)
    (hfind : mgr.models.find? (fun x => x.name = modelName) = some m)
    (hsym : m.is_symlink = false)
    (husb : d = if m.publisher ≠ "" then
        mgr.usbPath ++ [m.publisher, m.modelName]
      else mgr.usbPath ++ [m.modelName])
    (hpubdir : m.publisher ≠ "" →
      lookupFS fs (mgr.usbPath ++ [m.publisher]) ≠ none)
    (hspace1 : m.size_bytes + MIN_FREE_SPACE_BUFFER ≤ usbFree)
    (hspace2 : m.size_bytes + MIN_FREE_SPACE_BUFFER ≤ localFree)
    (hroot : lookupFS fs m.path = some Node.dir)
    (hdfresh : ∀ e ∈ fs, underPath d e.1 = false)
    (hdp : underPath d m.path = false)
    (hpd : underPath m.path d = false)
    (hnolink : ∀ e ∈ fs, underPath m.path e.1 = true → ∀ u, e.2 ≠ Node.link u)
    (hcnt : dirFileCount fs m.path ≠ 0)
    (hsz : dirFilesSize fs m.path ≠ 0)
    (hbk1 : lookupFS fs (backupSib m.path (".backup_" ++ pid)) = none)
    (hbk2 : underPath d (backupSib m.path (".backup_" ++ pid)) = false)
    (hbk3 : underPath m.path (backupSib m.path (".backup_" ++ pid)) = false) :
    (move_model_to_usb mgr fs env usbFree SymStrategy.directory thr pats pid
        (some true) XferOut.ok modelName).1 = none ∧
    (move_model_from_usb (move_model_to_usb mgr fs env usbFree SymStrategy.directory thr pats pid
        (some true) XferOut.ok modelName).2.2 (move_model_to_usb mgr fs env usbFree SymStrategy.directory thr pats pid
        (some true) XferOut.ok modelName).2.1 env2 localFree pid modelName).1 = none ∧
    calcSize (move_model_from_usb (move_model_to_usb mgr fs env usbFree SymStrategy.directory thr pats pid
        (some true) XferOut.ok modelName).2.2 (move_model_to_usb mgr fs env usbFree SymStrategy.directory thr pats pid
        (some true) XferOut.ok modelName).2.1 env2 localFree pid modelName).2.1 m.path = calcSize fs m.path := by
  have hnd : ∀ u, Node.dir ≠ Node.link u := fun u h => Node.noConfusion h
  have hlookd : lookupFS fs d = none := by
    refine lookupFS_none_of_keys fs d ?_
    intro e he hk
    have h1 := hdfresh e he
    rw [hk, underPath_refl] at h1
    cases h1
  have hfs1 : (if m.publisher ≠ "" then
      mkdirP fs (mgr.usbPath ++ [m.publisher]) else fs) = fs := by
    by_cases hp : m.publisher ≠ ""
    · rw [if_pos hp]
      unfold mkdirP
      cases hl : lookupFS fs (mgr.usbPath ++ [m.publisher]) with
      | none => exact absurd hl (hpubdir hp)
      | some n => rfl
    · rw [if_neg hp]
  have hstage1 : (move_model_to_usb mgr fs env usbFree SymStrategy.directory thr pats pid
        (some true) XferOut.ok modelName) =
      (none, (((fs.filter (fun e => !underPath m.path e.1)) ++ ((fs.filter (fun e => underPath m.path e.1)).map (fun e => (rebasePath m.path d e.1, e.2)))) ++ [(m.path, Node.link d)]), updateModel mgr { m with is_symlink := true, linked_to := some d }) := by
    unfold move_model_to_usb
    simp only [henv1m, henv1w, henv1s, Bool.not_true, Bool.false_eq_true,
      if_false, ite_false, hfind, hsym]
    rw [← husb, hfs1]
    simp only [pexists_none fs d hlookd, Bool.false_eq_true, if_false,
      ite_false]
    have hnsp : ¬ (usbFree < m.size_bytes + MIN_FREE_SPACE_BUFFER) := by
      omega
    simp only [hnsp, if_false, ite_false]
    rw [move_dir_symlink_success fs m d pid hroot hdfresh hdp hnolink hcnt
      hsz]
  -- facts about the mid state
  have hAunder : ∀ e ∈ (fs.filter (fun e => underPath m.path e.1)), underPath m.path e.1 = true :=
    fun e he => (List.mem_filter.mp he).2
  have hlookR_d : lookupFS (fs.filter (fun e => !underPath m.path e.1)) d = none := lookupFS_filter_none fs _ d hlookd
  have hlookAmap_d : lookupFS ((fs.filter (fun e => underPath m.path e.1)).map (fun e => (rebasePath m.path d e.1, e.2))) d = some Node.dir := by
    rw [lookupFS_map_rebase _ m.path d hAunder,
      lookupFS_filter_key_all fs _ m.path
        (fun e _ hk => by rw [hk]; exact underPath_refl m.path)]
    exact hroot
  have hdnp : d ≠ m.path := by
    intro hdm
    rw [← hdm, underPath_refl] at hdp
    cases hdp
  have hd3 : lookupFS (((fs.filter (fun e => !underPath m.path e.1)) ++ ((fs.filter (fun e => underPath m.path e.1)).map (fun e => (rebasePath m.path d e.1, e.2)))) ++ [(m.path, Node.link d)]) d = some Node.dir := by
    rw [lookupFS_append_single_ne _ _ _ d hdnp, lookupFS_append, hlookR_d,
      hlookAmap_d]
    rfl
  have hfind2 : (updateModel mgr { m with is_symlink := true, linked_to := some d }).models.find?
      (fun x => x.name = modelName) = some ({ m with is_symlink := true, linked_to := some d } : MInfo) := by
    unfold updateModel
    exact find?_map_update mgr.models modelName m { m with is_symlink := true, linked_to := some d } hfind rfl
  have hstage2 : move_model_from_usb (updateModel mgr { m with is_symlink := true, linked_to := some d }) (((fs.filter (fun e => !underPath m.path e.1)) ++ ((fs.filter (fun e => underPath m.path e.1)).map (fun e => (rebasePath m.path d e.1, e.2)))) ++ [(m.path, Node.link d)])
      env2 localFree pid modelName =
      (none, (((fs.filter (fun e => !underPath m.path e.1)) ++ [((backupSib m.path (".backup_" ++ pid)), Node.link d)]) ++ (fs.filter (fun e => underPath m.path e.1))),
        updateModel (updateModel mgr { m with is_symlink := true, linked_to := some d })
          { ({ m with is_symlink := true, linked_to := some d } : MInfo) with is_symlink := false, linked_to := none }) := by
    unfold move_model_from_usb
    simp only [hfind2, Bool.not_true, Bool.false_and, Bool.false_eq_true,
      if_false, ite_false, henv2m, henv2w, eq_self_iff_true, if_true,
      ite_true]
    simp only [pexists_nonlink (((fs.filter (fun e => !underPath m.path e.1)) ++ ((fs.filter (fun e => underPath m.path e.1)).map (fun e => (rebasePath m.path d e.1, e.2)))) ++ [(m.path, Node.link d)]) d Node.dir hd3 hnd, Bool.not_true,
      Bool.false_eq_true, if_false, ite_false]
    have hnsp2 : ¬ (localFree < m.size_bytes + MIN_FREE_SPACE_BUFFER) := by
      omega
    simp only [hnsp2, if_false, ite_false]
    rw [safe_restore_success fs m.path d pid hroot hdfresh hdp hpd hnolink
      hcnt hsz hbk1 hbk2 hbk3]
  have hproj1 : (move_model_to_usb mgr fs env usbFree SymStrategy.directory thr pats pid
        (some true) XferOut.ok modelName).2.2 = updateModel mgr { m with is_symlink := true, linked_to := some d } := by rw [hstage1]
  have hproj2 : (move_model_to_usb mgr fs env usbFree SymStrategy.directory thr pats pid
        (some true) XferOut.ok modelName).2.1 = (((fs.filter (fun e => !underPath m.path e.1)) ++ ((fs.filter (fun e => underPath m.path e.1)).map (fun e => (rebasePath m.path d e.1, e.2)))) ++ [(m.path, Node.link d)]) := by rw [hstage1]
  have hlookfin_p : lookupFS (((fs.filter (fun e => !underPath m.path e.1)) ++ [((backupSib m.path (".backup_" ++ pid)), Node.link d)]) ++ (fs.filter (fun e => underPath m.path e.1))) m.path = some Node.dir := by
    rw [lookupFS_append, lookupFS_append]
    have h1 : lookupFS (fs.filter (fun e => !underPath m.path e.1)) m.path = none := by
      refine lookupFS_none_of_keys _ m.path ?_
      intro e he hk
      have h2 := (List.mem_filter.mp he).2
      rw [hk, underPath_refl] at h2
      exact absurd h2 (by decide)
    have h2 : lookupFS ([((backupSib m.path (".backup_" ++ pid)), Node.link d)] : FS) m.path = none := by
      refine lookupFS_none_of_keys _ m.path ?_
      intro e he
      rcases List.mem_singleton.mp he with rfl
      exact ne_of_not_under m.path _ hbk3
    have h3 : lookupFS (fs.filter (fun e => underPath m.path e.1)) m.path = some Node.dir := by
      rw [lookupFS_filter_key_all fs _ m.path
        (fun e _ hk => by rw [hk]; exact underPath_refl m.path)]
      exact hroot
    rw [h1, h2, h3]
    rfl
  have hc1 : calcSize (((fs.filter (fun e => !underPath m.path e.1)) ++ [((backupSib m.path (".backup_" ++ pid)), Node.link d)]) ++ (fs.filter (fun e => underPath m.path e.1))) m.path = dirFilesSize (((fs.filter (fun e => !underPath m.path e.1)) ++ [((backupSib m.path (".backup_" ++ pid)), Node.link d)]) ++ (fs.filter (fun e => underPath m.path e.1))) m.path := by
    unfold calcSize linkFuel
    simp only [calcSizeFuel, hlookfin_p]
  have hc2 : calcSize fs m.path = dirFilesSize fs m.path := by
    unfold calcSize linkFuel
    simp only [calcSizeFuel, hroot]
  refine ⟨?_, ?_, ?_⟩
  · rw [hstage1]
  · rw [hproj1, hproj2, hstage2]
  · rw [hproj1, hproj2,
      show (move_model_from_usb (updateModel mgr { m with is_symlink := true, linked_to := some d }) (((fs.filter (fun e => !underPath m.path e.1)) ++ ((fs.filter (fun e => underPath m.path e.1)).map (fun e => (rebasePath m.path d e.1, e.2)))) ++ [(m.path, Node.link d)])
        env2 localFree pid modelName).2.1 = (((fs.filter (fun e => !underPath m.path e.1)) ++ [((backupSib m.path (".backup_" ++ pid)), Node.link d)]) ++ (fs.filter (fun e => underPath m.path e.1))) from by rw [hstage2]]
    rw [hc1, hc2]
    exact dirFilesSize_restored fs m.path d _ hnolink hbk3

end LLMover

namespace LLMover

/-- The filesystem for the C6 witness: one directory entry with a single
5-byte file on the local root, and the publisher directory on the USB
root. -/
def c6fs : FS :=
  [(["local", "pub", "model"], Node.dir),
   (["local", "pub", "model", "f.bin"], Node.file 5),
   (["usb", "pub"], Node.dir)]

/-- Witness for C6 at a concrete state: a relocation followed by a restore
both succeed and the reported size of the entry is unchanged. -/
theorem C6_roundtrip_size_witness :
    (move_model_to_usb wManager c6fs wEnv 1000000000000
        SymStrategy.directory 104857600 [] "1" (some true) XferOut.ok
        "pub/model").1 = none ∧
    (move_model_from_usb (move_model_to_usb wManager c6fs wEnv 1000000000000
        SymStrategy.directory 104857600 [] "1" (some true) XferOut.ok
        "pub/model").2.2 (move_model_to_usb wManager c6fs wEnv 1000000000000
        SymStrategy.directory 104857600 [] "1" (some true) XferOut.ok
        "pub/model").2.1 wEnv 1000000000000 "1"
        "pub/model").1 = none ∧
    calcSize (move_model_from_usb (move_model_to_usb wManager c6fs wEnv 1000000000000
        SymStrategy.directory 104857600 [] "1" (some true) XferOut.ok
        "pub/model").2.2 (move_model_to_usb wManager c6fs wEnv 1000000000000
        SymStrategy.directory 104857600 [] "1" (some true) XferOut.ok
        "pub/model").2.1 wEnv 1000000000000 "1"
        "pub/model").2.1 wModel.path = calcSize c6fs wModel.path := by
  refine C6_roundtrip_size wManager c6fs wEnv wEnv 1000000000000 1000000000000
    104857600 [] "1" "pub/model" wModel ["usb", "pub", "model"]
    (by decide) (by decide) (by decide) (by decide) (by decide)
    (by decide) (by decide) (by decide)
    (by intro _; decide)
    (by decide) (by decide) (by decide)
    ?hdfresh (by decide) (by decide) ?hnolink
    (by decide) (by decide) (by decide) (by decide) (by decide)
  case hdfresh =>
    intro e he
    have hall : c6fs.all
        (fun e => !underPath ["usb", "pub", "model"] e.1) = true := by decide
    have h2 := List.all_eq_true.mp hall e he
    cases hv : underPath ["usb", "pub", "model"] e.1
    · rfl
    · rw [hv] at h2
      exact absurd h2 (by decide)
  case hnolink =>
    intro e he _ u
    rcases List.mem_cons.mp he with rfl | he
    · exact fun h => Node.noConfusion h
    · rcases List.mem_cons.mp he with rfl | he
      · exact fun h => Node.noConfusion h
      · rcases List.mem_singleton.mp he with rfl
        exact fun h => Node.noConfusion h

end LLMover
